import Mathlib

/-!
Shallow embedding of the UTAP type checker (`src/typechecker.cpp` together
with the declarations in `src/utap/symbols.h`).  Types, expressions and the
checker's functions are translated directly from the source; external
services (the constant interpreter, the range arithmetic whose
implementation is not part of the sources) are modelled from the
specification where noted.
-/

namespace UTAP

/-- Base tags of type terms (`type_t` static members in symbols.h). -/
inductive TyBase where
  | unknown | voidT | intT | boolT | clock | scalar | location | channel
  | templ | inst | func | array | record | process | named
  | invariant | invariantWR | guard | diff | constraint | cost | rate
deriving DecidableEq, Repr

/-- Type prefixes (`prefix::prefix_t` in symbols.h). -/
inductive Pfx where
  | urgent | committed | constant | broadcast | reference | meta | winning | losing
deriving DecidableEq, Repr

/-- Range-bound expressions.  In the source the bounds of an integer or
scalar type are full `expression_t` trees; the checker only ever asks three
things of them: whether they are empty, whether two of them are
syntactically equal (`expression_t::equal`), and their value under the
constant interpreter.  We therefore model them by a small syntax of
constants and named identifiers; `emptyE` is the empty expression. -/
inductive RExpr where
  | emptyE
  | cst (n : Int)
  | var (s : String)
deriving DecidableEq, Repr

/-- Type terms (`type_t`).  `base` is the base tag, `pfx` the prefix set,
`(lo, hi)` the optional range (empty expressions when absent), `nid` the
identity of the associated frame (record fields / scalar-set identity; 0
for structural types), `sub` the optional sub-type (element type of an
array), `asize` the optional array-size type, and `fields` the
names and types of the frame's symbols.  Types are value-immutable;
equality is structural with frames compared through `nid`. -/
inductive Ty where
  | mk (base : TyBase) (pfx : List Pfx) (lo hi : RExpr) (nid : Nat)
       (sub : List Ty) (asize : List Ty) (fields : List (String × Ty))

mutual

/-- Structural equality of type terms (`type_t::operator==`); frames are
compared through their identity `nid` together with their contents. -/
def Ty.beq : Ty → Ty → Bool
  | .mk b1 p1 l1 h1 n1 s1 a1 f1, .mk b2 p2 l2 h2 n2 s2 a2 f2 =>
    b1 == b2 && p1 == p2 && l1 == l2 && h1 == h2 && n1 == n2 &&
    Ty.beqList s1 s2 && Ty.beqList a1 a2 && Ty.beqFields f1 f2

def Ty.beqList : List Ty → List Ty → Bool
  | [], [] => true
  | x :: xs, y :: ys => Ty.beq x y && Ty.beqList xs ys
  | _, _ => false

def Ty.beqFields : List (String × Ty) → List (String × Ty) → Bool
  | [], [] => true
  | (n1, t1) :: xs, (n2, t2) :: ys => n1 == n2 && Ty.beq t1 t2 && Ty.beqFields xs ys
  | _, _ => false

end

instance : BEq Ty := ⟨Ty.beq⟩

namespace Ty

/-- A primitive type with the given base (`type_t::createBase`). -/
def prim (b : TyBase) : Ty := .mk b [] .emptyE .emptyE 0 [] [] []

instance : Inhabited Ty := ⟨prim .unknown⟩

def base : Ty → TyBase
  | .mk b _ _ _ _ _ _ _ => b

def pfx : Ty → List Pfx
  | .mk _ p _ _ _ _ _ _ => p

def lo : Ty → RExpr
  | .mk _ _ l _ _ _ _ _ => l

def hi : Ty → RExpr
  | .mk _ _ _ h _ _ _ _ => h

def nid : Ty → Nat
  | .mk _ _ _ _ n _ _ _ => n

def subL : Ty → List Ty
  | .mk _ _ _ _ _ s _ _ => s

def asizeL : Ty → List Ty
  | .mk _ _ _ _ _ _ a _ => a

/-- The symbols of the associated frame (record fields, function or
template parameters): names paired with types. -/
def fields : Ty → List (String × Ty)
  | .mk _ _ _ _ _ _ _ f => f

/-- The names of the frame's symbols. -/
def fnames (t : Ty) : List String := t.fields.map Prod.fst

/-- The types of the frame's symbols. -/
def ftypes (t : Ty) : List Ty := t.fields.map Prod.snd

/-- `type_t::hasPrefix`. -/
def hasPrefix (t : Ty) (p : Pfx) : Bool := t.pfx.contains p

/-- `type_t::getSub`; the default type when no sub-type is present. -/
def getSub (t : Ty) : Ty := t.subL.headD default

/-- `type_t::getArraySize`. -/
def getArraySize (t : Ty) : Ty := t.asizeL.headD default

/-- `type_t::getRange`. -/
def getRange (t : Ty) : RExpr × RExpr := (t.lo, t.hi)

/-- `type_t::isInteger`. -/
def isInteger (t : Ty) : Bool := t.base == .intT

/-- `type_t::isValue`. -/
def isValue (t : Ty) : Bool := t.base == .intT || t.base == .boolT

/-- `type_t::isScalar`. -/
def isScalar (t : Ty) : Bool := t.base == .scalar || t.isInteger

/-- `type_t::isClock`. -/
def isClock (t : Ty) : Bool := t.base == .clock

/-- `type_t::isRecord`. -/
def isRecord (t : Ty) : Bool := t.base == .record

/-- `type_t::isDiff`. -/
def isDiff (t : Ty) : Bool := t.base == .diff

/-- `type_t::isVoid`. -/
def isVoid (t : Ty) : Bool := t.base == .voidT

/-- `type_t::isInvariant`. -/
def isInvariant (t : Ty) : Bool := t.base == .invariant || t.isValue

/-- `type_t::isGuard`. -/
def isGuard (t : Ty) : Bool := t.base == .guard || t.isInvariant

/-- `type_t::isConstraint`. -/
def isConstraint (t : Ty) : Bool := t.base == .constraint || t.isGuard

/-- `type_t::isArray`. -/
def isArray (t : Ty) : Bool := t.base == .array

/-- `type_t::INT`. -/
def INT : Ty := prim .intT

/-- `type_t::BOOL`. -/
def BOOL : Ty := prim .boolT

/-- `type_t::CLOCK`. -/
def CLOCK : Ty := prim .clock

/-- `type_t::RATE`. -/
def RATE : Ty := prim .rate

/-- `type_t::COST`. -/
def COST : Ty := prim .cost

/-- `type_t::DIFF`. -/
def DIFF : Ty := prim .diff

/-- `type_t::INVARIANT`. -/
def INVARIANT : Ty := prim .invariant

/-- `type_t::INVARIANT_WR`. -/
def INVARIANT_WR : Ty := prim .invariantWR

/-- `type_t::GUARD`. -/
def GUARD : Ty := prim .guard

/-- `type_t::CONSTRAINT`. -/
def CONSTRAINT : Ty := prim .constraint

/-- The default-constructed `type_t()`, used as the "no type" value. -/
def nullT : Ty := prim .unknown

/-- `type_t::createInteger` with the given range bounds. -/
def createInteger (l u : RExpr) : Ty := .mk .intT [] l u 0 [] [] []

/-- `type_t::createArray elem size`. -/
def createArray (elem size : Ty) : Ty := .mk .array [] .emptyE .emptyE 0 [elem] [size] []

end Ty

/-- Expression kinds (subset of `Constants::kind_t` that the type checker
dispatches on; every other kind takes the checker's `default` branch and
is represented by `OTHER`). -/
inductive EKind where
  | EQ | NEQ
  | PLUS | MINUS | MULT | DIV | MOD | BIT_AND | BIT_OR | BIT_XOR
  | BIT_LSHIFT | BIT_RSHIFT | MIN | MAX
  | AND | OR | LT | LE | GE | GT
  | NOT | UNARY_MINUS | RATE
  | ASSIGN | ASSPLUS | ASSMINUS | ASSDIV | ASSMOD | ASSMULT
  | ASSAND | ASSOR | ASSXOR | ASSLSHIFT | ASSRSHIFT
  | POSTINCREMENT | PREINCREMENT | POSTDECREMENT | PREDECREMENT
  | INLINEIF | COMMA | FUNCALL | ARRAY | FORALL
  | IDENTIFIER | CONSTANT | DOT | LIST | SYNC | EMPTY | OTHER
deriving DecidableEq, Repr

/-- Synchronisation direction of a `SYNC` expression (`SYNC_BANG`,
`SYNC_QUE`). -/
inductive SyncD where
  | bang | que | noSync
deriving DecidableEq, Repr

instance : Inhabited SyncD := ⟨.noSync⟩

/-- A symbol (`symbol_t`): a name together with its declared type. -/
structure Symb where
  name : String
  ty : Ty

/-- Equality of symbols by name and type. -/
def Symb.beq (a b : Symb) : Bool := a.name == b.name && Ty.beq a.ty b.ty

instance : BEq Symb := ⟨Symb.beq⟩

/-- Expression nodes (`expression_t`): kind, position, type-annotation
slot, children, literal value, optional symbol and synchronisation
direction.  The empty expression is the node of kind `EMPTY`. -/
inductive Expr where
  | mk (kind : EKind) (pos : Nat) (ty : Ty) (args : List Expr)
       (value : Int) (sym : Option Symb) (sdir : SyncD)

mutual

/-- Structural equality of expressions (`expression_t::equal`). -/
def Expr.beq : Expr → Expr → Bool
  | .mk k1 p1 t1 a1 v1 s1 d1, .mk k2 p2 t2 a2 v2 s2 d2 =>
    k1 == k2 && p1 == p2 && Ty.beq t1 t2 && Expr.beqList a1 a2 &&
    v1 == v2 && s1 == s2 && d1 == d2

def Expr.beqList : List Expr → List Expr → Bool
  | [], [] => true
  | x :: xs, y :: ys => Expr.beq x y && Expr.beqList xs ys
  | _, _ => false

end

instance : BEq Expr := ⟨Expr.beq⟩

namespace Expr

/-- The empty expression (`expression_t()`), a distinguished sentinel. -/
def emptyExpr : Expr := .mk .EMPTY 0 Ty.nullT [] 0 none .noSync

instance : Inhabited Expr := ⟨emptyExpr⟩

def kind : Expr → EKind
  | .mk k _ _ _ _ _ _ => k

def pos : Expr → Nat
  | .mk _ p _ _ _ _ _ => p

def getType : Expr → Ty
  | .mk _ _ t _ _ _ _ => t

def args : Expr → List Expr
  | .mk _ _ _ a _ _ _ => a

def getValue : Expr → Int
  | .mk _ _ _ _ v _ _ => v

def symO : Expr → Option Symb
  | .mk _ _ _ _ _ s _ => s

def getSync : Expr → SyncD
  | .mk _ _ _ _ _ _ d => d

/-- `expression_t::empty`. -/
def isEmpty (e : Expr) : Bool := e.kind == .EMPTY

/-- `expression_t::getSize` (number of children). -/
def getSize (e : Expr) : Nat := e.args.length

/-- The `i`-th child, `expr[i]`. -/
def arg (e : Expr) (i : Nat) : Expr := e.args.getD i emptyExpr

/-- `expression_t::getSymbol`. -/
def getSymbol (e : Expr) : Symb := e.symO.getD ⟨"", default⟩

/-- `expression_t::setType` (returns the updated node; the C++ code
mutates the annotation slot in place). -/
def setType (e : Expr) (t : Ty) : Expr :=
  match e with
  | .mk k p _ a v s d => .mk k p t a v s d

/-- `expression_t::createBinary pos kind left right`; the type slot of a
freshly created node is the default type. -/
def createBinary (k : EKind) (l r : Expr) : Expr :=
  .mk k 0 Ty.nullT [l, r] 0 none .noSync

/-- `expression_t::createNary pos LIST children type`. -/
def createNaryList (p : Nat) (children : List Expr) (t : Ty) : Expr :=
  .mk .LIST p t children 0 none .noSync

end Expr

/-- Expression-level wrappers of the type predicates (the `static`
helpers at the top of typechecker.cpp). -/
def isCostE (e : Expr) : Bool := e.getType.base == .cost
def isVoidE (e : Expr) : Bool := e.getType.isVoid
def isScalarE (e : Expr) : Bool := e.getType.isScalar
def isIntegerE (e : Expr) : Bool := e.getType.isInteger
def isValueE (e : Expr) : Bool := e.getType.isValue
def isClockE (e : Expr) : Bool := e.getType.isClock
def isRecordE (e : Expr) : Bool := e.getType.isRecord
def isDiffE (e : Expr) : Bool := e.getType.isDiff
def isInvariantE (e : Expr) : Bool := e.getType.isInvariant

/-- `isInvariantWR`: a valid invariant-with-rate expression. -/
def isInvariantWRE (e : Expr) : Bool :=
  isInvariantE e || (e.getType == Ty.INVARIANT_WR)

def isGuardE (e : Expr) : Bool := e.getType.isGuard
def isConstraintE (e : Expr) : Bool := e.getType.isConstraint

/-- An error report: position and message (`ErrorHandler::error`). -/
abbrev Err := Nat × String

/-- Modelled from the spec: the `range_t` implementation is not in the
sources (only symbols.h declares it).  A closed integer interval with an
explicit empty state (the default-constructed range); `contains` is
inclusive, `intersect` returns empty for disjoint ranges, `join` is the
convex hull. -/
structure Rng where
  lo : Int
  hi : Int
deriving DecidableEq, Repr

namespace Rng

/-- The default-constructed empty range. -/
def emptyR : Rng := ⟨2147483647, -2147483648⟩

/-- The singleton range `range_t(v)`. -/
def single (v : Int) : Rng := ⟨v, v⟩

def isEmpty (r : Rng) : Bool := r.hi < r.lo

def containsI (r : Rng) (n : Int) : Bool := r.lo ≤ n && n ≤ r.hi

def contains (r s : Rng) : Bool := r.lo ≤ s.lo && s.hi ≤ r.hi

def intersect (r s : Rng) : Rng := ⟨max r.lo s.lo, min r.hi s.hi⟩

def join (r s : Rng) : Rng := ⟨min r.lo s.lo, max r.hi s.hi⟩

end Rng

/-- The analyzer's environment: the constant valuation used by the
interpreter (symbol name to value) and the persistent-variable set
computed by `PersistentVariables` (symbol names). -/
structure Env where
  V : List (String × Int)
  P : List String

/-- Modelled from the spec: the constant interpreter (`Interpreter`) is an
external collaborator whose sources are not part of this repository.  It
evaluates a range-bound expression under the constant valuation and raises
NotComputable (`none`) when the expression is not constant. -/
def ievalR (V : List (String × Int)) : RExpr → Option Int
  | .emptyE => none
  | .cst n => some n
  | .var s => (V.lookup s)

/-- `interpreter.evaluate` on a range pair: evaluates both bounds
(NotComputable when either bound is). -/
def evalRange (V : List (String × Int)) (r : RExpr × RExpr) : Option Rng :=
  match ievalR V r.1, ievalR V r.2 with
  | some l, some u => some ⟨l, u⟩
  | _, _ => none

/-- Modelled from the spec: `Interpreter::evaluate` on a full expression
(constant folding); NotComputable (`none`) on anything that is not built
from literals, valuated identifiers, and basic arithmetic. -/
def ieval (V : List (String × Int)) : Expr → Option Int
  | .mk .CONSTANT _ _ _ v _ _ => some v
  | .mk .IDENTIFIER _ _ _ _ s _ =>
    match s with
    | some sy => V.lookup sy.name
    | none => none
  | .mk .PLUS _ _ [a, b] _ _ _ =>
    match ieval V a, ieval V b with
    | some x, some y => some (x + y)
    | _, _ => none
  | .mk .MINUS _ _ [a, b] _ _ _ =>
    match ieval V a, ieval V b with
    | some x, some y => some (x - y)
    | _, _ => none
  | .mk .MULT _ _ [a, b] _ _ _ =>
    match ieval V a, ieval V b with
    | some x, some y => some (x * y)
    | _, _ => none
  | _ => none

/-- Modelled from the spec: `Interpreter::evaluate(expr, vector)` used for
non-lhs arguments, which may evaluate a list of values. -/
def ievalVector (V : List (String × Int)) (e : Expr) : Option (List Int) :=
  if e.kind == .LIST then
    e.args.mapM (ieval V)
  else
    (ieval V e).map ([·])

mutual

/-- Modelled from the spec: `expression_t::dependsOn` — true iff some
identifier in the expression resolves to a symbol of the persistent set,
transitively through the children. -/
def Expr.dependsOn (P : List String) : Expr → Bool
  | .mk k _ _ args _ s _ =>
    (k == .IDENTIFIER &&
      (match s with
       | some sy => P.contains sy.name
       | none => false))
    || Expr.dependsOnList P args

/-- `dependsOn` over a list of children. -/
def Expr.dependsOnList (P : List String) : List Expr → Bool
  | [] => false
  | x :: xs => Expr.dependsOn P x || Expr.dependsOnList P xs

end

/-- Kinds that update their left operand (assignments and
increment/decrement operators). -/
def isUpdateKind : EKind → Bool
  | .ASSIGN | .ASSPLUS | .ASSMINUS | .ASSDIV | .ASSMOD | .ASSMULT
  | .ASSAND | .ASSOR | .ASSXOR | .ASSLSHIFT | .ASSRSHIFT
  | .POSTINCREMENT | .PREINCREMENT | .POSTDECREMENT | .PREDECREMENT => true
  | _ => false

/-- The symbol a left-hand side resolves to, transitively through
array/dot projections (used by `changesVariable`). -/
def Expr.rootSymbol : Expr → Option String
  | .mk .IDENTIFIER _ _ _ _ s _ => s.map Symb.name
  | .mk .DOT _ _ (a :: _) _ _ _ => Expr.rootSymbol a
  | .mk .ARRAY _ _ (a :: _) _ _ _ => Expr.rootSymbol a
  | _ => none

mutual

/-- Modelled from the spec: `expression_t::changesVariable` — true iff the
expression contains an assignment or increment/decrement whose left-hand
side resolves into the persistent set. -/
def Expr.changesVariable (P : List String) : Expr → Bool
  | .mk k p t args v s d =>
    (isUpdateKind k &&
      (match Expr.rootSymbol ((Expr.mk k p t args v s d).arg 0) with
       | some n => P.contains n
       | none => false))
    || Expr.changesVariableList P args

/-- `changesVariable` over a list of children. -/
def Expr.changesVariableList (P : List String) : List Expr → Bool
  | [] => false
  | x :: xs => Expr.changesVariable P x || Expr.changesVariableList P xs

end

/-- `TypeChecker::isSideEffectFree`. -/
def isSideEffectFree (P : List String) (e : Expr) : Bool :=
  !(e.changesVariable P)

/-- The base type after stripping array layers
(the `while (t.getBase() == ARRAY) t = t.getSub();` loops). -/
def Ty.stripArrays : Ty → Ty
  | .mk .array _ _ _ _ (s :: _) _ _ => Ty.stripArrays s
  | t => t

/-- `TypeChecker::isLHSValue`. -/
def isLHSValue : Expr → Bool
  | .mk .IDENTIFIER _ _ _ _ s _ =>
    !(match s with
      | some sy => sy.ty.hasPrefix .constant
      | none => false)
  | .mk .DOT _ _ (a :: _) _ _ _ => isLHSValue a
  | .mk .ARRAY _ _ (a :: _) _ _ _ => isLHSValue a
  | .mk .PREINCREMENT _ _ (a :: _) _ _ _ => isLHSValue a
  | .mk .PREDECREMENT _ _ (a :: _) _ _ _ => isLHSValue a
  | .mk .ASSIGN _ _ (a :: _) _ _ _ => isLHSValue a
  | .mk .ASSPLUS _ _ (a :: _) _ _ _ => isLHSValue a
  | .mk .ASSMINUS _ _ (a :: _) _ _ _ => isLHSValue a
  | .mk .ASSDIV _ _ (a :: _) _ _ _ => isLHSValue a
  | .mk .ASSMOD _ _ (a :: _) _ _ _ => isLHSValue a
  | .mk .ASSMULT _ _ (a :: _) _ _ _ => isLHSValue a
  | .mk .ASSAND _ _ (a :: _) _ _ _ => isLHSValue a
  | .mk .ASSOR _ _ (a :: _) _ _ _ => isLHSValue a
  | .mk .ASSXOR _ _ (a :: _) _ _ _ => isLHSValue a
  | .mk .ASSLSHIFT _ _ (a :: _) _ _ _ => isLHSValue a
  | .mk .ASSRSHIFT _ _ (a :: _) _ _ _ => isLHSValue a
  | .mk .INLINEIF _ _ (_ :: t :: f :: _) _ _ _ =>
    if !(isLHSValue t) || !(isLHSValue f) then
      false
    else
      -- for integers both branches must carry syntactically identical
      -- range declarations on their symbols (after stripping arrays)
      let tt := (t.getSymbol).ty.stripArrays
      let ff := (f.getSymbol).ty.stripArrays
      if tt.base == .intT then
        tt.getRange.1 == ff.getRange.1 && tt.getRange.2 == ff.getRange.2
      else
        true
  | .mk .COMMA _ _ (_ :: b :: _) _ _ _ => isLHSValue b
  | _ => false

/-- `TypeChecker::typeOfBinaryNonInt`: the type of a binary operation
with non-integer operands; `none` stands for the default-constructed
`type_t()` returned when no combination matches. -/
def typeOfBinaryNonInt (left : Expr) (binaryop : EKind) (right : Expr) : Option Ty :=
  match binaryop with
  | .PLUS =>
    if (isIntegerE left && isClockE right) || (isClockE left && isIntegerE right) then
      some Ty.CLOCK
    else if (isDiffE left && isIntegerE right) || (isIntegerE left && isDiffE right) then
      some Ty.DIFF
    else
      none
  | .MINUS =>
    if isClockE left && isIntegerE right then
      some Ty.CLOCK
    else if (isDiffE left && isIntegerE right) || (isIntegerE left && isDiffE right)
            || (isClockE left && isClockE right) then
      some Ty.DIFF
    else
      none
  | .AND =>
    if isInvariantE left && isInvariantE right then
      some Ty.INVARIANT
    else if isInvariantWRE left && isInvariantWRE right then
      some Ty.INVARIANT_WR
    else if isGuardE left && isGuardE right then
      some Ty.GUARD
    else if isConstraintE left && isConstraintE right then
      some Ty.CONSTRAINT
    else
      none
  | .OR =>
    if isValueE left && isInvariantE right then
      some Ty.INVARIANT
    else if isValueE left && isGuardE right then
      some Ty.GUARD
    else if isConstraintE left && isConstraintE right then
      some Ty.CONSTRAINT
    else
      none
  | .LT | .LE =>
    if (isClockE left && isClockE right) || (isClockE left && isIntegerE right)
       || (isDiffE left && isIntegerE right) || (isIntegerE left && isDiffE right) then
      some Ty.INVARIANT
    else if isIntegerE left && isClockE right then
      some Ty.GUARD
    else
      none
  | .EQ =>
    if (isClockE left && isClockE right) || (isClockE left && isIntegerE right)
       || (isIntegerE left && isClockE right) || (isDiffE left && isIntegerE right)
       || (isIntegerE left && isDiffE right) then
      some Ty.GUARD
    else if (left.getType == Ty.RATE && isIntegerE right)
            || (isIntegerE left && right.getType == Ty.RATE) then
      some Ty.INVARIANT_WR
    else
      none
  | .NEQ =>
    if (isClockE left && isClockE right) || (isClockE left && isIntegerE right)
       || (isIntegerE left && isClockE right) || (isDiffE left && isIntegerE right)
       || (isIntegerE left && isDiffE right) then
      some Ty.CONSTRAINT
    else
      none
  | .GE | .GT =>
    if (isClockE left && isClockE right) || (isIntegerE left && isClockE right)
       || (isDiffE left && isIntegerE right) || (isIntegerE left && isDiffE right) then
      some Ty.INVARIANT
    else if isClockE left && isGuardE right then
      some Ty.GUARD
    else
      none
  | _ => none

/-- `TypeChecker::areInlineIfCompatible`.  Note: in the array case the
source compares the then-branch's size range to the range of `elseArg`
itself (the array type) instead of `elseSize`; this is transcribed
verbatim. -/
def areInlineIfCompatible : Ty → Ty → Bool
  | .mk .array p l h n sub asz f, elseArg =>
    let thenArg := Ty.mk .array p l h n sub asz f
    if elseArg.base == .array then
      let thenSize := thenArg.getArraySize
      let elseSize := elseArg.getArraySize
      let sizeOk :=
        if thenSize.isInteger && elseSize.isInteger then
          thenSize.getRange.1 == elseArg.getRange.1 &&
          thenSize.getRange.2 == elseArg.getRange.2
        else if thenSize.isScalar && elseSize.isScalar then
          thenSize == elseSize
        else
          false
      sizeOk &&
        (match sub with
         | s :: _ => areInlineIfCompatible s elseArg.getSub
         | [] => false)  -- getSub of a malformed array is the unknown type,
                         -- which is compatible with nothing
    else
      false
  | thenArg, elseArg =>
    if thenArg.isValue && elseArg.isValue then
      true
    else if thenArg.isClock && elseArg.isClock then
      true
    else if thenArg.base == .channel && elseArg.base == .channel then
      (thenArg.hasPrefix .urgent == elseArg.hasPrefix .urgent) &&
      (thenArg.hasPrefix .broadcast == elseArg.hasPrefix .broadcast)
    else if thenArg.isRecord && elseArg.isRecord then
      thenArg.nid == elseArg.nid
    else if thenArg.isScalar && elseArg.isScalar then
      thenArg == elseArg
    else
      false

/-- `TypeChecker::areAssignmentCompatible`. -/
def areAssignmentCompatible (lvalue rvalue : Ty) : Bool :=
  if lvalue.isClock && rvalue.isValue then
    true
  else if lvalue.isValue && rvalue.isValue then
    true
  else if lvalue.isRecord && rvalue.isRecord then
    lvalue.nid == rvalue.nid
  else if lvalue.isScalar && rvalue.isScalar then
    lvalue == rvalue
  else
    false

/-- `channelCapability`: 0 for urgent channels, 1 for non-urgent broadcast
channels, and 2 in all other cases. -/
def channelCapability (t : Ty) : Nat :=
  if t.hasPrefix .urgent then 0
  else if t.hasPrefix .broadcast then 1
  else 2

/-- The body of `TypeChecker::checkParameterCompatible` between `try` and
`catch`: every failed check throws its message.  `resolveArraysCPC` is the
`while (paramType.getBase() == ARRAY)` loop peeling array layers and
matching sizes. -/
def resolveArraysCPC (V : List (String × Int)) : Ty → Ty → Except String (Ty × Ty)
  | .mk .array p l h n sub asz f, argType =>
    let paramType := Ty.mk .array p l h n sub asz f
    if argType.base != .array then
      .error "Incompatible type"
    else
      let argSize := argType.getArraySize
      let paramSize := paramType.getArraySize
      if argSize.isInteger && paramSize.isInteger then
        if argSize.getRange.1 != paramSize.getRange.1
           || argSize.getRange.2 != paramSize.getRange.2 then
          .error "Incompatible type"
        else
          match sub with
          | s :: _ => resolveArraysCPC V s argType.getSub
          | [] => .ok (default, argType.getSub)
      else if argSize.isScalar && paramSize.isScalar then
        if argSize != paramSize then
          .error "Incompatible type"
        else
          match sub with
          | s :: _ => resolveArraysCPC V s argType.getSub
          | [] => .ok (default, argType.getSub)
      else
        .error "Incompatible type"
  | paramType, argType => .ok (paramType, argType)

/-- `TypeChecker::checkParameterCompatible`, the `try` block; throws the
first failed check's message. -/
def checkParameterCompatibleBody (V : List (String × Int)) (paramType0 : Ty)
    (arg : Expr) : Except String Unit := do
  let ref := paramType0.hasPrefix .reference
  let constant := paramType0.hasPrefix .constant
  let lhs0 := isLHSValue arg
  let argType0 := arg.getType

  -- If the parameter is not a reference, we can convert between
  -- booleans and integers.
  let (argType1, lhs1) :=
    if !ref && paramType0.base == .intT && argType0.base == .boolT then
      (Ty.createInteger (.cst 0) (.cst 1), false)
    else
      (argType0, lhs0)
  let (argType2, lhs) :=
    if !ref && paramType0.base == .boolT && argType1.base == .intT then
      (Ty.BOOL, false)
    else
      (argType1, lhs1)

  -- Non-const reference parameters require a lhs argument.
  if ref && !constant && !lhs then
    throw "Reference parameter requires left value argument"

  -- Resolve the base type of arrays.
  let (paramType, argType) ← resolveArraysCPC V paramType0 argType2

  -- The parameter and the argument must have the same base type.
  if paramType.base != argType.base then
    throw "Incompatible argument"

  let base := paramType.base
  if base == .clock || base == .boolT then
    return ()

  if base == .intT then
    -- Accept any argument when the parameter declares no range.
    if paramType.getRange.1 == RExpr.emptyE then
      return ()
    if lhs then
      -- case a: use the declared ranges.
      match evalRange V paramType.getRange, evalRange V argType.getRange with
      | some paramRange, some argRange =>
        if ref && !constant && argRange != paramRange then
          throw "Range of argument does not match range of formal parameter"
        if ref && constant && !(paramRange.contains argRange) then
          throw "Range of argument is outside of the range of the formal parameter"
        if (paramRange.intersect argRange).isEmpty then
          throw "Range of argument is outside of the range of the formal parameter"
      | _, _ =>
        -- Computing the declared range failed.
        if ref then
          if paramType.getRange.1 != argType.getRange.1
             || paramType.getRange.2 != argType.getRange.2 then
            throw "Range of argument does not match range of formal parameter"
    else
      -- case b: try to compute the argument's exact value(s).
      match evalRange V paramType.getRange, ievalVector V arg with
      | some paramRange, some value =>
        let argRange := value.foldl (fun r v => r.join (Rng.single v)) Rng.emptyR
        if !(paramRange.contains argRange) then
          throw "Range of argument is outside of the range of the formal parameter"
      | _, _ =>
        -- Bad luck: we need to revert to runtime checking.
        return ()
  else if base == .record then
    if paramType.nid != argType.nid then
      throw "Argument has incompatible type"
  else if base == .channel then
    if channelCapability argType < channelCapability paramType then
      throw "Incompatible channel type"
  else if base == .scalar then
    if paramType != argType then
      throw "Argument has incompatible type"
  else
    -- assert(false) in the source: unreachable for well-formed types.
    return ()

/-- `TypeChecker::checkParameterCompatible`: the outer `catch` converts a
thrown message into one error positioned at the argument expression. -/
def checkParameterCompatible (V : List (String × Int)) (paramType : Ty)
    (arg : Expr) : List Err :=
  match checkParameterCompatibleBody V paramType arg with
  | .error m => [(arg.pos, m)]
  | .ok _ => []

/-- `TypeChecker::checkFunctionCallArguments`. -/
def checkFunctionCallArguments (V : List (String × Int)) (e : Expr) : List Err :=
  let parameters := (e.arg 0).getType.fields
  if parameters.length > e.getSize - 1 then
    [(e.pos, "Too few arguments")]
  else if parameters.length < e.getSize - 1 then
    ((List.range e.getSize).drop (parameters.length + 1)).map
      (fun i => ((e.arg i).pos, "Too many arguments"))
  else
    (List.range parameters.length).flatMap
      (fun i => checkParameterCompatible V (parameters.getD i ("", default)).2 (e.arg (i + 1)))

/-- `TypeChecker::annotateAndExpectConstantInteger` restricted to
range-bound expressions: annotation of the simplified bound syntax always
succeeds, constants and identifiers are integer-typed, the empty
expression is not; an identifier is constant iff it is outside the
persistent set.  Positions of range bounds are not modelled (0). -/
def expectConstantIntegerR (P : List String) (e : RExpr) : Bool × List Err :=
  match e with
  | .emptyE => (false, [(0, "Integer expression expected")])
  | .cst _ => (true, [])
  | .var s =>
    if P.contains s then (false, [(0, "Constant expression expected")])
    else (true, [])

/-- The `INT`/`SCALAR` part of `TypeChecker::checkType`: bounds must be
constant integers and, when both evaluate, lower must not exceed upper;
a non-computable bound is an error only inside a record. -/
def checkTypeRangePart (env : Env) (l u : RExpr) (inRecord : Bool) : List Err :=
  if l == RExpr.emptyE then []
  else
    let (ok1, e1) := expectConstantIntegerR env.P l
    if !ok1 then e1
    else
      let (ok2, e2) := expectConstantIntegerR env.P u
      if !ok2 then e2
      else
        match ievalR env.V l with
        | none =>
          if inRecord then [(0, "Parameterised types not allowed in records")] else []
        | some lower =>
          match ievalR env.V u with
          | none =>
            if inRecord then [(0, "Parameterised types not allowed in records")] else []
          | some upper =>
            if lower > upper then [(0, "Invalid integer range")] else []

/-- `TypeChecker::checkType`. -/
def checkTypeE (env : Env) : Ty → Bool → List Err
  | .mk .intT _ l u _ _ _ _, inRecord => checkTypeRangePart env l u inRecord
  | .mk .scalar _ l u _ _ _ _, inRecord => checkTypeRangePart env l u inRecord
  | .mk .array _ _ _ _ sub asz _, inRecord =>
    (match asz with
     | s :: _ => checkTypeE env s false
     | [] => []) ++
    (match sub with
     | sb :: _ => checkTypeE env sb inRecord
     | [] => []) ++
    (let size := asz.headD default
     if !size.isScalar then [(0, "Invalid array size")]
     else
       match ievalR env.V size.getRange.1 with
       | none =>
         if inRecord then [(0, "Parameterised types not allowed in records")] else []
       | some lower =>
         match ievalR env.V size.getRange.2 with
         | none =>
           if inRecord then [(0, "Parameterised types not allowed in records")] else []
         | some upper =>
           if lower > upper then [(0, "Invalid array size")] else [])
  | .mk .record _ _ _ _ _ _ f, _ =>
    f.attach.flatMap (fun x => checkTypeE env x.1.2 true)
  | _, _ => []
termination_by t _ => sizeOf t
decreasing_by
  · simp only [Ty.mk.sizeOf_spec, List.cons.sizeOf_spec]
    omega
  · simp only [Ty.mk.sizeOf_spec, List.cons.sizeOf_spec]
    omega
  · have h := List.sizeOf_lt_of_mem x.2
    have h2 : sizeOf x.1.2 < sizeOf x.1 := by
      obtain ⟨⟨a, b⟩, hx⟩ := x
      simp only [Prod.mk.sizeOf_spec]
      omega
    simp only [Ty.mk.sizeOf_spec]
    omega

/-- The dispatch part of `TypeChecker::annotate`: the `switch` on the
expression's kind, run after all children have been annotated
successfully.  `e` is the node with annotated children; `funcallR` is the
result of the `FUNCALL` case's extra annotation of the first child.
Returns the (possibly re-typed) node, the success flag, and the emitted
errors. -/
def annotateDispatch (env : Env) (e : Expr)
    (funcallR : Option (Expr × Bool × List Err)) : Expr × Bool × List Err :=
  let a := e.arg 0
  let b := e.arg 1
  let c := e.arg 2
  match e.kind with
  | .EQ | .NEQ =>
    if isValueE a && isValueE b then
      (e.setType Ty.BOOL, true, [])
    else if isRecordE a && isRecordE b
            && a.getType.nid == b.getType.nid then
      (e.setType Ty.BOOL, true, [])
    else if a.getType.base == .scalar || b.getType.base == .scalar then
      if a.getType != b.getType then
        (e, false, [(e.pos, "Scalars can only be compared to scalars of the same scalarset")])
      else
        (e.setType Ty.BOOL, true, [])
    else
      match typeOfBinaryNonInt a e.kind b with
      | none => (e, false, [(e.pos, "Invalid operands to binary operator")])
      | some t => (e.setType t, true, [])
  | .PLUS | .MINUS | .MULT | .DIV | .MOD | .BIT_AND | .BIT_OR | .BIT_XOR
  | .BIT_LSHIFT | .BIT_RSHIFT | .MIN | .MAX =>
    if isValueE a && isValueE b then
      (e.setType Ty.INT, true, [])
    else
      match typeOfBinaryNonInt a e.kind b with
      | none => (e, false, [(e.pos, "Invalid operands to binary operator")])
      | some t => (e.setType t, true, [])
  | .AND | .OR | .LT | .LE | .GE | .GT =>
    if isValueE a && isValueE b then
      (e.setType Ty.BOOL, true, [])
    else
      match typeOfBinaryNonInt a e.kind b with
      | none => (e, false, [(e.pos, "Invalid operands to binary operator")])
      | some t => (e.setType t, true, [])
  | .NOT =>
    if isValueE a then
      (e.setType Ty.BOOL, true, [])
    else if isConstraintE a then
      (e.setType Ty.CONSTRAINT, true, [])
    else
      (e, false, [(e.pos, "Invalid operation for type")])
  | .UNARY_MINUS =>
    if !(isValueE a) then
      (e, false, [(e.pos, "Invalid operation for type")])
    else
      (e.setType Ty.INT, true, [])
  | .RATE =>
    if !(isCostE a) then
      (e, false, [(e.pos, "Can only apply rate to cost variables")])
    else
      (e.setType Ty.RATE, true, [])
  | .ASSIGN =>
    if !(areAssignmentCompatible a.getType b.getType) then
      (e, false, [(e.pos, "Incompatible types")])
    else if !(isLHSValue a) then
      (e, false, [(a.pos, "Left hand side value expected")])
    else
      (e.setType a.getType, true, [])
  | .ASSPLUS =>
    -- the errors are emitted, but the case falls through: the node is
    -- still typed and the annotation succeeds
    let errs :=
      if (!(isIntegerE a) && !(isCostE a)) || !(isIntegerE b) then
        [(e.pos, "Increment operator can only be used for integer and cost variables.")]
      else if !(isLHSValue a) then
        [(a.pos, "Left hand side value expected")]
      else
        []
    (e.setType a.getType, true, errs)
  | .ASSMINUS | .ASSDIV | .ASSMOD | .ASSMULT | .ASSAND | .ASSOR
  | .ASSXOR | .ASSLSHIFT | .ASSRSHIFT =>
    if !(isValueE a) || !(isValueE b) then
      (e, false, [(e.pos, "Non-integer types must use regular assignment operator")])
    else if !(isLHSValue a) then
      (e, false, [(a.pos, "Left hand side value expected")])
    else
      (e.setType a.getType, true, [])
  | .POSTINCREMENT | .PREINCREMENT | .POSTDECREMENT | .PREDECREMENT =>
    if !(isLHSValue a) then
      (e, false, [(a.pos, "Left hand side value expected")])
    else if !(isIntegerE a) then
      (e, false, [(e.pos, "Integer expected")])
    else
      (e.setType Ty.INT, true, [])
  | .INLINEIF =>
    if !(isValueE a) then
      (e, false, [(e.pos, "First argument of inline if must be an integer")])
    else if !(areInlineIfCompatible b.getType c.getType) then
      (e, false, [(e.pos, "Incompatible arguments to inline if")])
    else
      (e.setType b.getType, true, [])
  | .COMMA =>
    if !(isValueE a) && !(isScalarE a) && !(isClockE a) && !(isRecordE a)
       && !(isVoidE a) && !(isCostE a) then
      (e, false, [(a.pos, "Incompatible type for comma expression")])
    else if !(isValueE b) && !(isScalarE b) && !(isClockE b) && !(isRecordE b)
            && !(isVoidE b) && !(isCostE b) then
      (e, false, [(b.pos, "Incompatible type for comma expression")])
    else
      (e.setType b.getType, true, [])
  | .FUNCALL =>
    match funcallR with
    | some (a0, _, errsA) =>
      let e2 := Expr.mk e.kind e.pos e.getType (a0 :: e.args.drop 1)
                        e.getValue e.symO e.getSync
      if a0.getType.base != .func then
        (e2, false, errsA ++ [(a0.pos, "Function name expected")])
      else
        -- the annotation succeeds even when the argument check errs, and
        -- the node keeps its builder-assigned type
        (e2, true, errsA ++ checkFunctionCallArguments env.V e2)
    | none =>
      (e, false, [(e.pos, "Function name expected")])
  | .ARRAY =>
    let arg1 := a.getType
    let arg2 := b.getType
    if arg1.base != .array then
      (e, false, [(a.pos, "Array expected")])
    else
      let t := arg1.getSub
      if arg1.getArraySize.isInteger && arg2.isValue then
        match ieval env.V b, ievalR env.V arg1.getArraySize.getRange.1,
              ievalR env.V arg1.getArraySize.getRange.2 with
        | some index, some lower, some upper =>
          if index < lower || index > upper then
            (e, false, [(b.pos, "Array index out of range")])
          else
            (e.setType t, true, [])
        | _, _, _ => (e.setType t, true, [])
      else if arg1.getArraySize.isScalar && arg2.isScalar then
        if arg1.getArraySize != arg2 then
          (e, false, [(b.pos, "Incompatible type")])
        else
          (e.setType t, true, [])
      else
        (e.setType t, true, [])
  | .FORALL =>
    -- errors are emitted but the case falls through: the annotation
    -- always succeeds and the node receives the classified type (the
    -- default type when the body fits no classification)
    let errsT := checkTypeE env (a.getSymbol.ty) false
    let (tyF, errsB) :=
      if isValueE b then (Ty.BOOL, ([] : List Err))
      else if isInvariantE b then (Ty.INVARIANT, [])
      else if isGuardE b then (Ty.GUARD, [])
      else if isConstraintE b then (Ty.CONSTRAINT, [])
      else (Ty.nullT, [(b.pos, "Boolean expected")])
    let errsS :=
      if !(isSideEffectFree env.P b) then
        [(b.pos, "Expression must be side effect free")]
      else
        []
    (e.setType tyF, true, errsT ++ errsB ++ errsS)
  | _ =>
    -- the default branch: identifiers, constants, dot, list, sync, etc.
    -- arrive pre-typed and are passed through
    (e, true, [])

mutual

/-- `TypeChecker::annotate`: annotate all children first; on any child
failure return false without dispatching; otherwise dispatch on the kind.
Returns the updated node (the source mutates the tree in place), the
success flag, and the emitted errors.  The `FUNCALL` case's second
annotation of the (already annotated, in place) first child is modelled
by annotating the original first child, which yields the same result by
determinism of the annotator. -/
def annotate (env : Env) : Expr → Expr × Bool × List Err
  | .mk k p ty args v sym sd =>
    if k == .EMPTY then
      (Expr.mk k p ty args v sym sd, true, [])
    else
      let (args', ok, errs0) := annotateL env args
      let funcallR :=
        if k == .FUNCALL then
          match args with
          | a :: _ => some (annotate env a)
          | [] => none
        else
          none
      let e' := Expr.mk k p ty args' v sym sd
      if !ok then
        (e', false, errs0)
      else
        let (e'', ok2, errs2) := annotateDispatch env e' funcallR
        (e'', ok2, errs0 ++ errs2)

def annotateL (env : Env) : List Expr → List Expr × Bool × List Err
  | [] => ([], true, [])
  | x :: xs =>
    let (x', o1, e1) := annotate env x
    let (xs', o2, e2) := annotateL env xs
    (x' :: xs', o1 && o2, e1 ++ e2)

end

/-- The synchronisation part of `TypeChecker::visitEdge` (the body of the
`if (annotate(edge.sync))` block for a non-empty sync): `guard` is the
edge's guard after its own annotation, `sync` the annotated
synchronisation expression. -/
def visitEdgeSyncErrors (P : List String) (guard sync : Expr) : List Err :=
  let channel := (sync.arg 0).getType
  if channel.base != .channel then
    [((sync.arg 0).pos, "Channel expected")]
  else if !(isSideEffectFree P sync) then
    [(sync.pos, "Synchronisation must be side effect free")]
  else
    let hasClockGuard := !guard.isEmpty && !(isValueE guard)
    let isUrgent := channel.hasPrefix .urgent
    let receivesBroadcast := channel.hasPrefix .broadcast && sync.getSync == .que
    if isUrgent && hasClockGuard then
      [(sync.pos, "Clock guards are not allowed on urgent edges")]
    else if receivesBroadcast && hasClockGuard then
      [(sync.pos, "Clock guards are not allowed on broadcast receivers")]
    else
      []

/-- The state of a `RateDecomposer`: the collected `(clock-or-cost,
rate-expression)` pairs and the residual invariant. -/
structure Decomposer where
  rate : List (Expr × Expr)
  invariant : Expr

/-- A freshly constructed `RateDecomposer`: no pairs, empty invariant. -/
def Decomposer.init : Decomposer := ⟨[], Expr.emptyExpr⟩

/-- Conjoining a pure-invariant conjunct into the residual invariant
(the `isInvariant` branch of `RateDecomposer::decompose`). -/
def Decomposer.addInvariant (d : Decomposer) (e : Expr) : Decomposer :=
  if d.invariant.isEmpty then
    { d with invariant := e }
  else
    { d with invariant := Expr.createBinary .AND d.invariant e }

/-- Emitting a rate pair (the final branch of `RateDecomposer::decompose`):
for `rate(x) == r` the pair is `(x, r)`, for `r == rate(x)` it is
`(x, r)` with the operands read from the other side. -/
def Decomposer.addRate (d : Decomposer) (x y : Expr) : Decomposer :=
  if x.getType == Ty.RATE then
    { d with rate := d.rate ++ [(x.arg 0, y)] }
  else
    { d with rate := d.rate ++ [(y.arg 0, x)] }

/-- `RateDecomposer::decompose`: an invariant-classified node is conjoined
into the residual invariant; an `AND` node is decomposed recursively; any
other node is a rate equality with the `RATE`-typed operand on exactly one
side, emitting the pair `(x, r)` for `rate(x) == r` or `r == rate(x)`. -/
def Decomposer.decompose (d : Decomposer) : Expr → Decomposer
  | .mk .AND p t (x :: y :: rest) v s sd =>
    let e := Expr.mk .AND p t (x :: y :: rest) v s sd
    if isInvariantE e then
      d.addInvariant e
    else
      Decomposer.decompose (Decomposer.decompose d x) y
  | e =>
    if isInvariantE e then
      d.addInvariant e
    else
      match e with
      | .mk _ _ _ (x :: y :: _) _ _ _ => d.addRate x y
      | _ => d  -- violates the function's assertions; unreachable for
                -- well-formed invariant-with-rate expressions

/-- The decomposition part of `TypeChecker::visitState` for a non-empty
invariant (the code after the annotation checks, which runs
unconditionally): returns the residual invariant stored back into the
location and the cost-rate field (`none` when left untouched, i.e. when no
pair was emitted). -/
def visitStateDecompose (inv : Expr) : Expr × Option Expr :=
  let d := Decomposer.init.decompose inv
  (d.invariant,
   if d.rate.isEmpty then none
   else some (d.rate.headD (default, default)).2)

mutual

/-- `TypeChecker::checkInitialiser(type_t, expression_t)`.  A thrown
`InitialiserException` is the `.error` case, carrying the offending
sub-expression and the message.  Errors reported directly to the sink (the
record case) are collected in the returned list on success; sink errors
reported before a subsequent exception are not tracked (no claim depends
on them). -/
def checkInitialiser (V : List (String × Int)) :
    Ty → Expr → Except (Expr × String) (Expr × List Err)
  | .mk .array pf l h n sub asz flds, init =>
    let ty := Ty.mk .array pf l h n sub asz flds
    if init.kind != .LIST then
      .error (init, "Invalid array initialiser")
    else
      let size := ty.getArraySize
      if !size.isInteger then
        .error (init, "Arrays of scalarsets cannot have initialisers")
      else
        match ievalR V size.getRange.1, ievalR V size.getRange.2 with
        | some lower, some upper =>
          -- `dim` is a 32-bit int; the size comparisons in the source cast
          -- it to an unsigned 32-bit value
          let dim : Int := upper - lower + 1
          let dimU : Nat := (dim % 4294967296).toNat
          if init.getSize > dimU then
            .error (init, "Excess elements in array initialiser")
          else
            (match sub with
             | sb :: _ => do
               let (result, errs) ←
                 checkInitElems V sb init init.getType.fnames 0
               if init.getType.fnames.length < dimU then
                 .error (init, "Missing fields in initialiser")
               else
                 pure (Expr.createNaryList init.pos result ty, errs)
             | [] =>
               -- `getSub` is the default unknown type: the recursive check
               -- of any element fails immediately (after the name check)
               match init.getType.fnames with
               | [] =>
                 if init.getType.fnames.length < dimU then
                   .error (init, "Missing fields in initialiser")
                 else
                   pure (Expr.createNaryList init.pos [] ty, [])
               | nm :: _ =>
                 if nm != "" then
                   .error (init.arg 0, "Unknown field specified in initialiser")
                 else
                   .error (init.arg 0, "Invalid initialiser"))
        | _, _ =>
          .error (init, "Arrays with parameterized size cannot have an initialiser")
  | .mk .boolT _ _ _ _ _ _ _, init =>
    if !(isValueE init) then
      .error (init, "Invalid initialiser")
    else
      pure (init, [])
  | .mk .intT _ l h _ _ _ _, init =>
    if !(isValueE init) then
      .error (init, "Invalid initialiser")
    else if l == RExpr.emptyE then
      -- no range (e.g. a constant): nothing more to check
      pure (init, [])
    else
      match ieval V init, ievalR V l, ievalR V h with
      | some nval, some lower, some upper =>
        if !(Rng.containsI ⟨lower, upper⟩ nval) then
          .error (init, "Initialiser is out of range")
        else
          pure (init, [])
      | _, _, _ =>
        -- NotComputable: we cannot check more
        pure (init, [])
  | .mk .record pf l h n sub asz flds, init =>
    let ty := Ty.mk .record pf l h n sub asz flds
    if init.getType.base == .record && ty.nid == init.getType.nid then
      pure (init, [])
    else if init.kind != .LIST then
      .error (init, "Invalid initialiser for struct")
    else do
      let (result, errs) ←
        checkInitRecordLoop V flds init init.getType.fnames 0 0
          (List.replicate flds.length (none : Option Expr)) []
      if result.any Option.isNone then
        .error (init, "Incomplete initialiser")
      else
        pure (Expr.createNaryList init.pos
                (result.map (fun o => o.getD Expr.emptyExpr)) ty, errs)
  | _, init => .error (init, "Invalid initialiser")
termination_by t _ => (sizeOf t, 0, 0)

/-- The element loop of the array case of `checkInitialiser`: iterates
the names of the initialiser's frame with `i` the running index; each
entry must be unnamed, and each element is checked recursively against
the element type. -/
def checkInitElems (V : List (String × Int)) (subtype : Ty) (init : Expr) :
    List String → Nat → Except (Expr × String) (List Expr × List Err)
  | [], _ => pure ([], [])
  | nm :: rest, i =>
    if nm != "" then
      .error (init.arg i, "Unknown field specified in initialiser")
    else do
      let (r, errs1) ← checkInitialiser V subtype (init.arg i)
      let (rs, errs2) ← checkInitElems V subtype init rest (i + 1)
      pure (r :: rs, errs1 ++ errs2)
termination_by names _ => (sizeOf subtype, 1, names.length)

/-- The entry loop of the record case of `checkInitialiser`: fills
positional or named entries into declared-field order.  An unknown field
name or an excess entry reports an error and breaks; a second write to a
field reports an error and continues; otherwise the entry is checked
against the field's type and stored at the field's index. -/
def checkInitRecordLoop (V : List (String × Int)) (flds : List (String × Ty))
    (init : Expr) :
    List String → Nat → Nat → List (Option Expr) → List Err →
    Except (Expr × String) (List (Option Expr) × List Err)
  | [], _, _, result, errs => pure (result, errs)
  | nm :: rest, i, current, result, errs =>
    let curO : Option Nat :=
      if nm != "" then flds.findIdx? (fun fld => fld.1 == nm) else some current
    match curO with
    | none =>
      pure (result, errs ++ [((init.arg i).pos, "Unknown field")])
    | some cur =>
      if h : cur ≥ flds.length then
        pure (result, errs ++ [((init.arg i).pos, "Excess elements in intialiser")])
      else if (result.getD cur none).isSome then
        checkInitRecordLoop V flds init rest (i + 1) (cur + 1) result
          (errs ++ [((init.arg i).pos, "Multiple initialisers for field")])
      else do
        let (r, errs1) ←
          checkInitialiser V (flds.get ⟨cur, by omega⟩).2 (init.arg i)
        checkInitRecordLoop V flds init rest (i + 1) (cur + 1)
          (result.set cur (some r)) (errs ++ errs1)
termination_by names _ _ _ _ => (sizeOf flds, 1, names.length)
decreasing_by
  all_goals first
    | decreasing_tactic
    | (have h2 : cur < flds.length := by omega
       have hmem := List.sizeOf_lt_of_mem (List.getElem_mem h2)
       have hp : sizeOf (flds[cur]).2 < sizeOf flds[cur] := by
         cases flds[cur] with
         | mk a b =>
           simp only [Prod.mk.sizeOf_spec]
           omega
       simp only [List.get_eq_getElem]
       omega)

end

/-! ### Semantic interpretation of invariant-with-rate expressions

The following definitions state the *meaning* of the decomposition claims.
They interpret an invariant-with-rate tree the way `decompose` traverses
it: an invariant-classified node is an atom (`A`), a non-invariant `AND`
node is a conjunction, and any other node is a rate equality interpreted
by `R x r`, independently of which side the `RATE`-typed operand is on
(`==` is symmetric). -/

/-- Truth of an invariant-with-rate expression under an interpretation `A`
of pure-invariant conjuncts and `R` of rate equalities.  The empty
expression is vacuously true. -/
def sem (A : Expr → Prop) (R : Expr → Expr → Prop) : Expr → Prop
  | .mk .AND p t (x :: y :: rest) v s sd =>
    if isInvariantE (Expr.mk .AND p t (x :: y :: rest) v s sd) then
      A (Expr.mk .AND p t (x :: y :: rest) v s sd)
    else
      sem A R x ∧ sem A R y
  | e =>
    if e.isEmpty then
      True
    else if isInvariantE e then
      A e
    else
      match e with
      | .mk _ _ _ (x :: y :: _) _ _ _ =>
        if x.getType == Ty.RATE then R (x.arg 0) y else R (y.arg 0) x
      | _ => True

/-- The invariant-classified conjuncts that `decompose` conjoins into the
residual invariant, in traversal order. -/
def invLeaves : Expr → List Expr
  | .mk .AND p t (x :: y :: rest) v s sd =>
    if isInvariantE (Expr.mk .AND p t (x :: y :: rest) v s sd) then
      [Expr.mk .AND p t (x :: y :: rest) v s sd]
    else
      invLeaves x ++ invLeaves y
  | e => if isInvariantE e then [e] else []

/-- The rate pairs that `decompose` emits, in traversal order. -/
def ratePairs : Expr → List (Expr × Expr)
  | .mk .AND p t (x :: y :: rest) v s sd =>
    if isInvariantE (Expr.mk .AND p t (x :: y :: rest) v s sd) then
      []
    else
      ratePairs x ++ ratePairs y
  | e =>
    if isInvariantE e then
      []
    else
      match e with
      | .mk _ _ _ (x :: y :: _) _ _ _ =>
        if x.getType == Ty.RATE then [(x.arg 0, y)] else [(y.arg 0, x)]
      | _ => []

/-- Well-formedness of an invariant-with-rate expression, mirroring the
assertions of `RateDecomposer::decompose`: every node on the conjunction
spine is non-empty and either invariant-classified, a binary `AND`, or an
`EQ` with the `RATE`-typed operand on exactly one side. -/
def wfInvWR : Expr → Bool
  | .mk .AND p t (x :: y :: rest) v s sd =>
    isInvariantE (Expr.mk .AND p t (x :: y :: rest) v s sd)
    || (wfInvWR x && wfInvWR y)
  | e =>
    !e.isEmpty &&
    (isInvariantE e ||
     (e.kind == .EQ &&
      match e with
      | .mk _ _ _ (x :: y :: _) _ _ _ =>
        (x.getType == Ty.RATE) != (y.getType == Ty.RATE)
      | _ => false))

/-- The invariant consists solely of rate equalities: every node on the
conjunction spine is a non-invariant `AND` or a rate equality, and no node
is invariant-classified. -/
def allRateEqs : Expr → Bool
  | .mk .AND p t (x :: y :: rest) v s sd =>
    !(isInvariantE (Expr.mk .AND p t (x :: y :: rest) v s sd))
    && allRateEqs x && allRateEqs y
  | e =>
    !(isInvariantE e) && e.kind == .EQ &&
    (match e with
     | .mk _ _ _ (x :: y :: _) _ _ _ =>
       (x.getType == Ty.RATE) != (y.getType == Ty.RATE)
     | _ => false)

/-- Conjoining one conjunct into a residual invariant, as
`Decomposer.addInvariant` does on the invariant field. -/
def conjoinInv (inv x : Expr) : Expr :=
  if inv.isEmpty then x else Expr.createBinary .AND inv x

/-! ### Concrete fixtures

Small concrete types and expressions used to instantiate the theorems
below on closed inputs. -/

/-- An empty analysis environment: no constants, no persistent variables. -/
def env0 : Env := ⟨[], []⟩

/-- A non-constant integer variable. -/
def intVar (nm : String) : Expr :=
  .mk .IDENTIFIER 1 Ty.INT [] 0 (some ⟨nm, Ty.INT⟩) .noSync

/-- A non-constant boolean variable. -/
def boolVar (nm : String) : Expr :=
  .mk .IDENTIFIER 1 Ty.BOOL [] 0 (some ⟨nm, Ty.BOOL⟩) .noSync

/-- A clock variable. -/
def clockVar (nm : String) : Expr :=
  .mk .IDENTIFIER 1 Ty.CLOCK [] 0 (some ⟨nm, Ty.CLOCK⟩) .noSync

/-- An integer literal. -/
def intConst (n : Int) : Expr := .mk .CONSTANT 2 Ty.INT [] n none .noSync

/-- An urgent channel type. -/
def chanUrgent : Ty := .mk .channel [.urgent] .emptyE .emptyE 0 [] [] []

/-- A (non-urgent) broadcast channel type. -/
def chanBroadcast : Ty := .mk .channel [.broadcast] .emptyE .emptyE 0 [] [] []

/-- An identifier of the given channel type. -/
def chanArg (t : Ty) : Expr := .mk .IDENTIFIER 3 t [] 0 (some ⟨"ch", t⟩) .noSync

/-- The integer type `int[0,5]`. -/
def intT05 : Ty := .mk .intT [] (.cst 0) (.cst 5) 0 [] [] []

/-- An integer type whose lower bound is a non-computable identifier. -/
def intTN5 : Ty := .mk .intT [] (.var "N") (.cst 5) 0 [] [] []

/-- `forall (i : int) c` with `c` a clock: the body is neither a value nor
an invariant, guard or constraint. -/
def exForallClock : Expr :=
  .mk .FORALL 9 Ty.nullT [intVar "i", clockVar "c"] 0 none .noSync

/-- The array type `int[3]` with size range `[1,3]`. -/
def arrInt13 : Ty := Ty.createArray Ty.INT (Ty.createInteger (.cst 1) (.cst 3))

/-- A cost variable. -/
def costVarE : Expr :=
  .mk .IDENTIFIER 1 Ty.COST [] 0 (some ⟨"cost", Ty.COST⟩) .noSync

/-- The rate expression `cost'`. -/
def rateNodeE : Expr := .mk .RATE 11 Ty.RATE [costVarE] 0 none .noSync

/-- The rate equality `cost' == 2` (typed invariant-with-rate). -/
def rateEqE : Expr :=
  .mk .EQ 12 Ty.INVARIANT_WR [rateNodeE, intConst 2] 0 none .noSync

/-- The pure invariant `c <= 10`. -/
def invLeafE : Expr :=
  .mk .LE 10 Ty.INVARIANT [clockVar "c", intConst 10] 0 none .noSync

/-- The location invariant `c <= 10 && cost' == 2`. -/
def invFullE : Expr :=
  .mk .AND 13 Ty.INVARIANT_WR [invLeafE, rateEqE] 0 none .noSync

/-- `b -= 1` with `b` a boolean variable: both operands are values and the
left operand is an lhs. -/
def exAssMinusBool : Expr :=
  .mk .ASSMINUS 5 Ty.nullT [boolVar "b", intConst 1] 0 none .noSync

/-- `c += 1` with `c` a clock: the left operand is neither integer nor
cost, an ill-typed combination for `+=`. -/
def exAssPlusClock : Expr :=
  .mk .ASSPLUS 7 Ty.nullT [clockVar "c", intConst 1] 0 none .noSync

/-- An urgent-channel synchronisation `ch!`. -/
def exSyncUrgent : Expr :=
  .mk .SYNC 30 Ty.nullT [chanArg chanUrgent] 0 none .bang

/-- A clock guard `c <= 1` (invariant-typed, not a plain value). -/
def exClockGuard : Expr :=
  .mk .LE 31 Ty.INVARIANT [clockVar "c", intConst 1] 0 none .noSync

/-- A boolean constant expression. -/
def boolConst (b : Int) : Expr := .mk .CONSTANT 3 Ty.BOOL [] b none .noSync

/-- The array type `bool[1]` (size range `[1,1]`). -/
def arrBool1 : Ty := Ty.createArray Ty.BOOL (Ty.createInteger (.cst 1) (.cst 1))

/-- The frame type the parser gives the initialiser list `{ true }`: one
positional (empty-named) entry. -/
def initListTy1 : Ty := Ty.mk .record [] .emptyE .emptyE 7 [] [] [("", Ty.BOOL)]

/-- The initialiser list `{ true }`. -/
def initList1 : Expr := .mk .LIST 40 initListTy1 [boolConst 1] 0 none .noSync

/-- The record type `struct { bool a; bool b; }` (frame identity 5). -/
def recTy2 : Ty := Ty.mk .record [] .emptyE .emptyE 5 [] [] [("a", Ty.BOOL), ("b", Ty.BOOL)]

/-- The frame type the parser gives the initialiser list
`{ b: false, a: true }`: two named entries in source order. -/
def recInitTy2 : Ty := Ty.mk .record [] .emptyE .emptyE 9 [] [] [("b", Ty.BOOL), ("a", Ty.BOOL)]

/-- The initialiser list `{ b: false, a: true }`. -/
def recInit2 : Expr := .mk .LIST 50 recInitTy2 [boolConst 0, boolConst 1] 0 none .noSync

/-! ### Theorems -/

/-- The `while`-loop of `checkParameterCompatible` leaves a non-array
parameter type untouched. -/
theorem resolveArraysCPC_nonarray (V : List (String × Int)) (p a : Ty)
    (hp : p.base ≠ .array) : resolveArraysCPC V p a = .ok (p, a) := by
  rcases p with ⟨b, pf, l, h, n, sub, asz, flds⟩
  cases b
  all_goals first
    | simp [resolveArraysCPC]
    | simp [Ty.base] at hp

/-- For channel-base parameter and argument types, the body of
`checkParameterCompatible` reduces to the capability comparison. -/
theorem cpcBody_channel (V : List (String × Int)) (pf : List Pfx)
    (l h : RExpr) (n : Nat) (sub asz : List Ty) (flds : List (String × Ty))
    (arg : Expr) (hq : arg.getType.base = .channel)
    (hpre : (Ty.mk .channel pf l h n sub asz flds).hasPrefix .reference = false
            ∨ isLHSValue arg = true) :
    checkParameterCompatibleBody V (Ty.mk .channel pf l h n sub asz flds) arg =
      (if channelCapability (arg.getType)
          < channelCapability (Ty.mk .channel pf l h n sub asz flds)
       then .error "Incompatible channel type" else .ok ()) := by
  have hres := resolveArraysCPC_nonarray V (Ty.mk .channel pf l h n sub asz flds)
      (arg.getType) (by simp [Ty.base])
  have hrefc : ((Ty.mk .channel pf l h n sub asz flds).hasPrefix Pfx.reference
      && !((Ty.mk .channel pf l h n sub asz flds).hasPrefix .constant)
      && !(isLHSValue arg)) = false := by
    rcases hpre with h1 | h1 <;> simp [h1]
  rcases harg : arg.getType with ⟨b2, p2, l2, h2, n2, s2, a2, f2⟩
  rw [harg] at hres hq
  simp only [Ty.base] at hq
  subst hq
  simp [checkParameterCompatibleBody, Ty.base, hrefc, hres, harg,
    bind, Except.bind, pure, Except.pure, throw, throwThe, MonadExceptOf.throw]

/-- C9: for every single argument checked against a formal parameter,
`checkParameterCompatible` reports at most one error, and every reported
error is positioned at the argument expression (the first failed check
throws, aborting the remaining checks, and the single `catch` reports at
the argument). -/
theorem checkParameterCompatible_at_most_one_error
    (V : List (String × Int)) (paramType : Ty) (arg : Expr) :
    (checkParameterCompatible V paramType arg).length ≤ 1
    ∧ (checkParameterCompatible V paramType arg).all
        (fun er => er.1 == arg.pos) = true := by
  unfold checkParameterCompatible
  cases checkParameterCompatibleBody V paramType arg <;> simp

/-- C4: for a channel-typed formal parameter `P` and an argument of
channel type `Q` (past the reference/lhs precheck), the check accepts iff
`capability(Q) ≥ capability(P)`, where capability is 0 for urgent
channels, 1 for non-urgent broadcast channels and 2 otherwise. -/
theorem channel_parameter_capability_check
    (V : List (String × Int)) (pT : Ty) (arg : Expr)
    (hp : pT.base = .channel) (hq : arg.getType.base = .channel)
    (hpre : pT.hasPrefix .reference = false ∨ isLHSValue arg = true) :
    (checkParameterCompatible V pT arg = [] ↔
      channelCapability pT ≤ channelCapability (arg.getType))
    ∧ (∀ t : Ty, t.hasPrefix .urgent = true → channelCapability t = 0)
    ∧ (∀ t : Ty, t.hasPrefix .urgent = false → t.hasPrefix .broadcast = true →
        channelCapability t = 1)
    ∧ (∀ t : Ty, t.hasPrefix .urgent = false → t.hasPrefix .broadcast = false →
        channelCapability t = 2) := by
  refine ⟨?_, ?_, ?_, ?_⟩
  · rcases pT with ⟨b, pf, l, h, n, sub, asz, flds⟩
    simp only [Ty.base] at hp
    subst hp
    have hbody := cpcBody_channel V pf l h n sub asz flds arg hq hpre
    unfold checkParameterCompatible
    rw [hbody]
    by_cases hc : channelCapability (arg.getType)
        < channelCapability (Ty.mk .channel pf l h n sub asz flds)
    all_goals simp [hc]
    all_goals omega
  · intro t ht
    simp [channelCapability, ht]
  · intro t hu hb
    simp [channelCapability, hu, hb]
  · intro t hu hb
    simp [channelCapability, hu, hb]

/-- Witness for C4: an urgent-channel formal accepts a broadcast-channel
argument (capability 1 ≥ 0). -/
theorem channel_parameter_capability_check_witness :
    checkParameterCompatible [] chanUrgent (chanArg chanBroadcast) = [] :=
  (channel_parameter_capability_check [] chanUrgent (chanArg chanBroadcast)
    rfl rfl (Or.inl rfl)).1.mpr (by decide)

/-- C7: for an edge whose synchronisation is over a channel (the channel
base matched and the synchronisation is side-effect free), if the channel
is urgent, or is broadcast with receive direction, an error is reported
iff the edge has a non-empty guard whose type is not a plain value; the
urgent case takes precedence and yields the urgent-edge error, the
broadcast-receive case yields the broadcast-receiver error. -/
theorem edge_sync_clock_guard_errors (P : List String) (guard sync : Expr)
    (hch : (sync.arg 0).getType.base = .channel)
    (hse : isSideEffectFree P sync = true)
    (hcase : (sync.arg 0).getType.hasPrefix .urgent = true
      ∨ ((sync.arg 0).getType.hasPrefix .broadcast = true
         ∧ sync.getSync = .que)) :
    (visitEdgeSyncErrors P guard sync ≠ [] ↔
      (guard.isEmpty = false ∧ isValueE guard = false))
    ∧ ((sync.arg 0).getType.hasPrefix .urgent = true →
        guard.isEmpty = false → isValueE guard = false →
        visitEdgeSyncErrors P guard sync
          = [(sync.pos, "Clock guards are not allowed on urgent edges")])
    ∧ ((sync.arg 0).getType.hasPrefix .urgent = false →
        (sync.arg 0).getType.hasPrefix .broadcast = true → sync.getSync = .que →
        guard.isEmpty = false → isValueE guard = false →
        visitEdgeSyncErrors P guard sync
          = [(sync.pos, "Clock guards are not allowed on broadcast receivers")]) := by
  refine ⟨?_, ?_, ?_⟩
  · rcases hcase with hu | ⟨hb, hs⟩
    · cases hge : guard.isEmpty <;> cases hgv : isValueE guard <;>
        simp [visitEdgeSyncErrors, hch, hse, hge, hgv, hu]
    · cases hge : guard.isEmpty <;> cases hgv : isValueE guard <;>
        cases hu : (sync.arg 0).getType.hasPrefix .urgent <;>
        simp [visitEdgeSyncErrors, hch, hse, hge, hgv, hu, hb, hs]
  · intro hu hge hgv
    simp [visitEdgeSyncErrors, hch, hse, hge, hgv, hu]
  · intro hu hb hs hge hgv
    simp [visitEdgeSyncErrors, hch, hse, hge, hgv, hu, hb, hs]

/-- Witness for C7: a clock guard `c <= 1` on an edge synchronising on an
urgent channel yields exactly the urgent-edge error. -/
theorem edge_sync_clock_guard_errors_witness :
    visitEdgeSyncErrors [] exClockGuard exSyncUrgent
      = [(30, "Clock guards are not allowed on urgent edges")] :=
  (edge_sync_clock_guard_errors [] exClockGuard exSyncUrgent rfl rfl
    (Or.inl rfl)).2.1 rfl rfl rfl

set_option maxHeartbeats 1000000 in
/-- C8: for an Int-typed initializer with a declared range, when both the
range and the initializer evaluate under the constant valuation, the
out-of-range error is raised iff the value lies outside the range; when
either evaluation is NotComputable, the initializer passes through with no
error. -/
theorem int_initialiser_range_check
    (V : List (String × Int)) (pf : List Pfx) (l h : RExpr) (n : Nat)
    (sub asz : List Ty) (flds : List (String × Ty)) (init : Expr)
    (hv : isValueE init = true) (hl : l ≠ RExpr.emptyE) :
    (∀ nval lower upper,
      ieval V init = some nval → ievalR V l = some lower →
      ievalR V h = some upper →
      ((checkInitialiser V (Ty.mk .intT pf l h n sub asz flds) init
          = .error (init, "Initialiser is out of range")
        ↔ (nval < lower ∨ upper < nval))
       ∧ ((lower ≤ nval ∧ nval ≤ upper) →
           checkInitialiser V (Ty.mk .intT pf l h n sub asz flds) init
             = .ok (init, []))))
    ∧ ((ieval V init = none ∨ ievalR V l = none ∨ ievalR V h = none) →
        checkInitialiser V (Ty.mk .intT pf l h n sub asz flds) init
          = .ok (init, [])) := by
  have hlf : (l == RExpr.emptyE) = false := by
    simp [hl]
  constructor
  · intro nval lower upper hn hlo hhi
    rw [checkInitialiser]
    simp only [hv, hlf, hn, hlo, hhi, Bool.not_true, Bool.false_eq_true,
      if_false, Rng.containsI]
    constructor
    · constructor
      · intro he
        by_contra hc
        simp only [not_or, not_lt] at hc
        have hb : (decide (lower ≤ nval) && decide (nval ≤ upper)) = true := by
          simp [hc.1, hc.2]
        simp only [hb] at he
        simp [pure, Except.pure] at he
      · intro hc
        have hb : (decide (lower ≤ nval) && decide (nval ≤ upper)) = false := by
          rcases hc with hc | hc <;> simp <;> omega
        simp only [hb]
        simp
    · intro hin
      have hb : (decide (lower ≤ nval) && decide (nval ≤ upper)) = true := by
        simp [hin.1, hin.2]
      simp only [hb]
      simp [pure, Except.pure]
  · intro hnc
    rw [checkInitialiser]
    rcases hnc with hc | hc | hc
    · simp [hv, hlf, hc, pure, Except.pure]
    · cases hc2 : ieval V init <;> simp [hv, hlf, hc, hc2, pure, Except.pure]
    · cases hc2 : ieval V init <;> cases hc3 : ievalR V l <;>
        simp [hv, hlf, hc, hc2, hc3, pure, Except.pure]

/-- Witness for C8: `int[0,5] x = 7` raises the out-of-range error, and
`int[N,5] x = 7` with non-computable `N` passes through. -/
theorem int_initialiser_range_check_witness :
    checkInitialiser [] intT05 (intConst 7)
      = .error (intConst 7, "Initialiser is out of range")
    ∧ checkInitialiser [] intTN5 (intConst 7) = .ok (intConst 7, []) := by
  constructor
  · exact ((int_initialiser_range_check [] [] (.cst 0) (.cst 5) 0 [] [] []
      (intConst 7) rfl (by decide)).1 7 0 5 rfl rfl rfl).1.mpr (by decide)
  · exact (int_initialiser_range_check [] [] (.var "N") (.cst 5) 0 [] [] []
      (intConst 7) rfl (by decide)).2 (Or.inr (Or.inl rfl))

/-- C1: for `c += 1` with `c` a clock — an ill-typed combination for the
compound assignment `+=` — the annotator emits the positioned error but
returns true, annotating the node with the left operand's type.  This
contradicts the annotator's contract ("Returns true if no type errors
were found, false otherwise"): the `ASSPLUS` and `FORALL` cases fall
through to `setType`/`return true` after `handleError`. -/
theorem annotate_assplus_error_returns_true :
    (annotate env0 exAssPlusClock).2.2
      = [(7, "Increment operator can only be used for integer and cost variables.")]
    ∧ (annotate env0 exAssPlusClock).2.1 = true
    ∧ (annotate env0 exForallClock).2.2 = [(1, "Boolean expected")]
    ∧ (annotate env0 exForallClock).2.1 = true := by
  refine ⟨rfl, rfl, ?_, ?_⟩ <;>
    simp [annotate, annotateL, annotateDispatch, checkTypeE, exForallClock,
      intVar, clockVar, env0, Expr.arg, Expr.args, Expr.setType, Expr.kind,
      Expr.pos, Expr.getSymbol, Expr.symO, isSideEffectFree,
      Expr.changesVariable, Expr.changesVariableList, isValueE, isInvariantE,
      isGuardE, isConstraintE, Ty.isValue, Ty.isInvariant, Ty.isGuard,
      Ty.isConstraint, Ty.isInteger, Ty.base, Expr.getType, Ty.CLOCK, Ty.INT,
      Ty.prim, checkTypeRangePart, Expr.rootSymbol, isUpdateKind,
      Expr.emptyExpr]

/-- C5 counterexample: for `b -= 1` with `b` a boolean variable, both
operands are values and the left operand is an lhs, yet the annotator
assigns the expression the type Bool, not Int (the code assigns the type
of the left operand). -/
theorem compound_assignment_bool_counterexample :
    isValueE (exAssMinusBool.arg 0) = true
    ∧ isValueE (exAssMinusBool.arg 1) = true
    ∧ isLHSValue (exAssMinusBool.arg 0) = true
    ∧ (annotate env0 exAssMinusBool).2.1 = true
    ∧ (annotate env0 exAssMinusBool).1.getType = Ty.BOOL
    ∧ Ty.BOOL ≠ Ty.INT := by
  refine ⟨rfl, rfl, rfl, rfl, rfl, ?_⟩
  simp [Ty.BOOL, Ty.INT, Ty.prim]

/-- C5 (amended): for every compound assignment other than `+=` whose two
operands are both values and whose left operand is an lhs, the annotator
succeeds and assigns the expression the type of its left operand. -/
theorem compound_assignment_left_operand_type (env : Env) (k : EKind)
    (hk : k = .ASSMINUS ∨ k = .ASSDIV ∨ k = .ASSMOD ∨ k = .ASSMULT ∨ k = .ASSAND
      ∨ k = .ASSOR ∨ k = .ASSXOR ∨ k = .ASSLSHIFT ∨ k = .ASSRSHIFT)
    (p : Nat) (ty : Ty) (v : Int) (sym : Option Symb) (sd : SyncD) (a b : Expr)
    (ha : annotate env a = (a, true, [])) (hb : annotate env b = (b, true, []))
    (hva : isValueE a = true) (hvb : isValueE b = true)
    (hlhs : isLHSValue a = true) :
    annotate env (.mk k p ty [a, b] v sym sd)
      = (.mk k p a.getType [a, b] v sym sd, true, []) := by
  rcases hk with h|h|h|h|h|h|h|h|h <;> subst h <;>
    simp [annotate, annotateL, ha, hb, annotateDispatch, Expr.arg, Expr.args,
      hva, hvb, hlhs, Expr.setType, Expr.kind]

/-- Witness for the amended C5: `x -= 1` with `x` an integer variable is
annotated with the type of `x`. -/
theorem compound_assignment_left_operand_type_witness :
    annotate env0 (.mk .ASSMINUS 5 Ty.nullT [intVar "x", intConst 1] 0 none .noSync)
      = (.mk .ASSMINUS 5 Ty.INT [intVar "x", intConst 1] 0 none .noSync,
         true, []) :=
  compound_assignment_left_operand_type env0 .ASSMINUS (Or.inl rfl) 5 Ty.nullT 0
    none .noSync (intVar "x") (intConst 1) rfl rfl rfl rfl rfl

/-- C6: the array case of `areInlineIfCompatible` compares the then-array's
size range against the range of the else ARRAY type itself (`elseArg`
instead of `elseSize`); an array type has no range, so two identically
declared integer-sized arrays are reported incompatible, contradicting the
function's documentation ("In case of arrays, they must have the same size
and the subtypes must be compatible"). -/
theorem inline_if_identical_int_arrays_incompatible :
    areInlineIfCompatible arrInt13 arrInt13 = false
    ∧ areInlineIfCompatible arrInt13.getSub arrInt13.getSub = true
    ∧ (arrInt13.getArraySize.getRange.1 == arrInt13.getArraySize.getRange.1
       && arrInt13.getArraySize.getRange.2 == arrInt13.getArraySize.getRange.2)
        = true
    ∧ arrInt13.getRange = (RExpr.emptyE, RExpr.emptyE) :=
  ⟨rfl, rfl, rfl, rfl⟩

/-- `addInvariant` leaves the collected rate pairs unchanged. -/
theorem addInvariant_rate (d : Decomposer) (e : Expr) :
    (d.addInvariant e).rate = d.rate := by
  unfold Decomposer.addInvariant
  split <;> rfl

/-- `addInvariant` conjoins the conjunct into the residual invariant. -/
theorem addInvariant_invariant (d : Decomposer) (e : Expr) :
    (d.addInvariant e).invariant = conjoinInv d.invariant e := by
  unfold Decomposer.addInvariant conjoinInv
  split <;> rfl

/-- `addRate` leaves the residual invariant unchanged. -/
theorem addRate_invariant (d : Decomposer) (x y : Expr) :
    (d.addRate x y).invariant = d.invariant := by
  unfold Decomposer.addRate
  split <;> rfl

/-- `addRate` appends the emitted pair. -/
theorem addRate_rate (d : Decomposer) (x y : Expr) :
    (d.addRate x y).rate = d.rate ++
      [if (x.getType == Ty.RATE) = true then (x.arg 0, y) else (y.arg 0, x)] := by
  unfold Decomposer.addRate
  split <;> simp_all

/-- `decompose` on an invariant-classified node conjoins it wholesale. -/
theorem decompose_of_inv (d : Decomposer) (e : Expr) (he : isInvariantE e = true) :
    d.decompose e = d.addInvariant e := by
  rw [Decomposer.decompose.eq_def]
  split
  · simp [he]
  · simp [he]

/-- An invariant-classified node emits no rate pairs. -/
theorem ratePairs_of_inv (e : Expr) (he : isInvariantE e = true) :
    ratePairs e = [] := by
  rw [ratePairs.eq_def]
  split
  · simp [he]
  · simp [he]

/-- An invariant-classified node is its own single invariant leaf. -/
theorem invLeaves_of_inv (e : Expr) (he : isInvariantE e = true) :
    invLeaves e = [e] := by
  rw [invLeaves.eq_def]
  split
  · simp [he]
  · simp [he]

/-- The empty expression holds vacuously. -/
theorem sem_of_empty (A : Expr → Prop) (R : Expr → Expr → Prop) (e : Expr)
    (he : e.isEmpty = true) : sem A R e = True := by
  rw [sem.eq_def]
  split
  · simp [Expr.isEmpty, Expr.kind] at he
  · simp [he]

/-- A non-empty invariant-classified node is interpreted by the atom `A`. -/
theorem sem_of_inv (A : Expr → Prop) (R : Expr → Expr → Prop) (e : Expr)
    (he : isInvariantE e = true) (hne : e.isEmpty = false) :
    sem A R e = A e := by
  rw [sem.eq_def]
  split
  · simp [he]
  · simp [he, hne]

/-- The pairs collected by `decompose` are exactly the rate equalities of
the tree, appended in traversal order. -/
theorem decompose_rate_eq (d : Decomposer) (e : Expr) :
    (d.decompose e).rate = d.rate ++ ratePairs e := by
  induction d, e using Decomposer.decompose.induct with
  | case1 d p t x y rest v s sd e he =>
    rw [Decomposer.decompose.eq_1, ratePairs.eq_1]
    simp only [e] at he
    simp [he, addInvariant_rate]
  | case2 d p t x y rest v s sd e he ihx ihy =>
    rw [Decomposer.decompose.eq_1, ratePairs.eq_1]
    simp only [e, Bool.not_eq_true] at he
    simp [he, ihx, ihy]
  | case3 d e hne he =>
    rw [decompose_of_inv d e he, ratePairs_of_inv e he]
    simp [addInvariant_rate]
  | case4 d kind pos ty x y tail value sym sdir hne he =>
    rw [Decomposer.decompose.eq_2 d kind pos ty x y tail value sym sdir hne,
        ratePairs.eq_2 kind pos ty x y tail value sym sdir hne]
    simp only [Bool.not_eq_true] at he
    simp only [he, Bool.false_eq_true, if_false]
    rw [addRate_rate]
    split <;> rfl
  | case5 d e hne1 he hne2 =>
    rw [Decomposer.decompose.eq_3 d e hne1 hne2, ratePairs.eq_3 e hne1 hne2]
    simp only [Bool.not_eq_true] at he
    simp [he]

/-- The residual invariant built by `decompose` is the fold of the
invariant leaves over `conjoinInv`. -/
theorem decompose_invariant_eq (d : Decomposer) (e : Expr) :
    (d.decompose e).invariant = (invLeaves e).foldl conjoinInv d.invariant := by
  induction d, e using Decomposer.decompose.induct with
  | case1 d p t x y rest v s sd e he =>
    rw [Decomposer.decompose.eq_1, invLeaves.eq_1]
    simp only [e] at he
    simp [he, addInvariant_invariant]
  | case2 d p t x y rest v s sd e he ihx ihy =>
    rw [Decomposer.decompose.eq_1, invLeaves.eq_1]
    simp only [e, Bool.not_eq_true] at he
    simp [he, ihx, ihy, List.foldl_append]
  | case3 d e hne he =>
    rw [decompose_of_inv d e he, invLeaves_of_inv e he]
    simp [addInvariant_invariant]
  | case4 d kind pos ty x y tail value sym sdir hne he =>
    rw [Decomposer.decompose.eq_2 d kind pos ty x y tail value sym sdir hne,
        invLeaves.eq_2 _ hne]
    simp only [Bool.not_eq_true] at he
    simp [he, addRate_invariant]
  | case5 d e hne1 he hne2 =>
    rw [Decomposer.decompose.eq_3 d e hne1 hne2, invLeaves.eq_2 _ hne1]
    simp only [Bool.not_eq_true] at he
    simp [he]

/-- A well-formed non-`AND` node is non-empty. -/
theorem wf_nonempty (e : Expr)
    (hne : ∀ (p : Nat) (t : Ty) (x y : Expr) (rest : List Expr) (v : Int)
      (s : Option Symb) (sd : SyncD),
      e = Expr.mk EKind.AND p t (x :: y :: rest) v s sd → False)
    (hwf : wfInvWR e = true) : e.isEmpty = false := by
  rcases e with ⟨k, p, t, args, v, s, sd⟩
  rcases args with _ | ⟨a, _ | ⟨b, tail⟩⟩
  · rw [wfInvWR.eq_3 _ hne (by intro kind pos ty x2 y2 tl vv ss dd hEq; simp at hEq)] at hwf
    simp only [Bool.and_eq_true, Bool.not_eq_true'] at hwf
    exact hwf.1
  · rw [wfInvWR.eq_3 _ hne (by intro kind pos ty x2 y2 tl vv ss dd hEq; simp at hEq)] at hwf
    simp only [Bool.and_eq_true, Bool.not_eq_true'] at hwf
    exact hwf.1
  · rw [wfInvWR.eq_2 _ _ _ _ _ _ _ _ _ hne] at hwf
    simp only [Bool.and_eq_true, Bool.not_eq_true'] at hwf
    exact hwf.1

/-- Every invariant leaf of a well-formed invariant-with-rate tree is
invariant-classified and non-empty. -/
theorem invLeaves_spec (e : Expr) (hwf : wfInvWR e = true) :
    ∀ l ∈ invLeaves e, isInvariantE l = true ∧ l.isEmpty = false := by
  induction e using wfInvWR.induct with
  | case1 p t x y rest v s sd ihx ihy =>
    by_cases hinv : isInvariantE (Expr.mk .AND p t (x :: y :: rest) v s sd) = true
    · rw [invLeaves_of_inv _ hinv]
      intro l hl
      simp only [List.mem_singleton] at hl
      subst hl
      exact ⟨hinv, by simp [Expr.isEmpty, Expr.kind]⟩
    · have hinv' : isInvariantE (Expr.mk .AND p t (x :: y :: rest) v s sd) = false := by
        simpa using hinv
      rw [wfInvWR.eq_1] at hwf
      simp only [hinv', Bool.false_or, Bool.and_eq_true] at hwf
      rw [invLeaves.eq_1]
      simp only [hinv', Bool.false_eq_true, if_false]
      intro l hl
      rcases List.mem_append.mp hl with h | h
      · exact ihx hwf.1 l h
      · exact ihy hwf.2 l h
  | case2 e hne =>
    by_cases hinv : isInvariantE e = true
    · have hemp : e.isEmpty = false := wf_nonempty e hne hwf
      rw [invLeaves_of_inv _ hinv]
      intro l hl
      simp only [List.mem_singleton] at hl
      subst hl
      exact ⟨hinv, hemp⟩
    · rw [invLeaves.eq_2 _ hne]
      simp [hinv]

/-- Conjoining a non-empty invariant conjunct is semantic conjunction. -/
theorem sem_conjoinInv (A : Expr → Prop) (R : Expr → Expr → Prop) (i l : Expr)
    (hl1 : isInvariantE l = true) (hl2 : l.isEmpty = false) :
    sem A R (conjoinInv i l) ↔ (sem A R i ∧ A l) := by
  unfold conjoinInv
  cases hi : i.isEmpty
  · simp only [Bool.false_eq_true, if_false]
    rw [show Expr.createBinary .AND i l = Expr.mk .AND 0 Ty.nullT [i, l] 0 none .noSync from rfl]
    rw [sem.eq_1]
    have hni : isInvariantE (Expr.mk .AND 0 Ty.nullT [i, l] 0 none .noSync) = false := by
      simp [isInvariantE, Expr.getType, Ty.nullT, Ty.prim, Ty.isInvariant,
        Ty.isValue, Ty.base]
    rw [sem_of_inv A R l hl1 hl2]
    simp [hni]
  · simp only [if_true]
    rw [sem_of_inv A R l hl1 hl2, sem_of_empty A R i hi]
    simp

/-- The fold of invariant conjuncts over `conjoinInv` holds iff the seed
holds and every conjunct holds. -/
theorem sem_foldl (A : Expr → Prop) (R : Expr → Expr → Prop) (ls : List Expr) :
    ∀ i, (∀ l ∈ ls, isInvariantE l = true ∧ l.isEmpty = false) →
    (sem A R (ls.foldl conjoinInv i) ↔ (sem A R i ∧ ∀ l ∈ ls, A l)) := by
  induction ls with
  | nil => simp
  | cons l ls ih =>
    intro i hmem
    simp only [List.foldl_cons]
    rw [ih (conjoinInv i l) (fun x hx => hmem x (by simp [hx]))]
    have hl := hmem l (by simp)
    rw [sem_conjoinInv A R i l hl.1 hl.2]
    simp only [List.mem_cons]
    constructor
    · rintro ⟨⟨h1, h2⟩, h3⟩
      refine ⟨h1, fun x hx => ?_⟩
      rcases hx with rfl | hx
      · exact h2
      · exact h3 x hx
    · rintro ⟨h1, h2⟩
      exact ⟨⟨h1, h2 l (Or.inl rfl)⟩, fun x hx => h2 x (Or.inr hx)⟩

/-- A well-formed invariant-with-rate tree holds iff all its invariant
leaves and all its rate equalities hold. -/
theorem sem_decomp (A : Expr → Prop) (R : Expr → Expr → Prop) (e : Expr)
    (hwf : wfInvWR e = true) :
    sem A R e ↔ ((∀ l ∈ invLeaves e, A l) ∧ (∀ q ∈ ratePairs e, R q.1 q.2)) := by
  induction e using wfInvWR.induct with
  | case1 p t x y rest v s sd ihx ihy =>
    by_cases hinv : isInvariantE (Expr.mk .AND p t (x :: y :: rest) v s sd) = true
    · rw [sem_of_inv A R _ hinv (by simp [Expr.isEmpty, Expr.kind]),
        invLeaves_of_inv _ hinv, ratePairs_of_inv _ hinv]
      simp
    · have hinv' : isInvariantE (Expr.mk .AND p t (x :: y :: rest) v s sd) = false := by
        simpa using hinv
      rw [wfInvWR.eq_1] at hwf
      simp only [hinv', Bool.false_or, Bool.and_eq_true] at hwf
      rw [sem.eq_1, invLeaves.eq_1, ratePairs.eq_1]
      simp only [hinv', Bool.false_eq_true, if_false]
      rw [ihx hwf.1, ihy hwf.2]
      simp only [List.mem_append]
      constructor
      · rintro ⟨⟨hx1, hx2⟩, hy1, hy2⟩
        constructor
        · intro l hl
          rcases hl with hl | hl
          · exact hx1 l hl
          · exact hy1 l hl
        · intro q hq
          rcases hq with hq | hq
          · exact hx2 q hq
          · exact hy2 q hq
      · rintro ⟨h1, h2⟩
        exact ⟨⟨fun l hl => h1 l (Or.inl hl), fun q hq => h2 q (Or.inl hq)⟩,
               fun l hl => h1 l (Or.inr hl), fun q hq => h2 q (Or.inr hq)⟩
  | case2 e hne =>
    have hemp : e.isEmpty = false := wf_nonempty e hne hwf
    by_cases hinv : isInvariantE e = true
    · rw [sem_of_inv A R _ hinv hemp, invLeaves_of_inv _ hinv,
        ratePairs_of_inv _ hinv]
      simp
    · have hinv' : isInvariantE e = false := by simpa using hinv
      -- the node must be a rate equality with at least two children
      rcases e with ⟨k, p, t, args, v, s, sd⟩
      rcases args with _ | ⟨a, _ | ⟨b, tail⟩⟩
      · rw [wfInvWR.eq_3 _ hne
          (by intro kind pos ty x2 y2 tl vv ss dd hEq; simp at hEq)] at hwf
        simp [hinv'] at hwf
      · rw [wfInvWR.eq_3 _ hne
          (by intro kind pos ty x2 y2 tl vv ss dd hEq; simp at hEq)] at hwf
        simp [hinv'] at hwf
      · rw [sem.eq_2 A R _ _ _ _ _ _ _ _ _ hne, invLeaves.eq_2 _ hne,
          ratePairs.eq_2 _ _ _ _ _ _ _ _ _ hne]
        simp only [hemp, hinv', Bool.false_eq_true, if_false]
        cases hr : (a.getType == Ty.RATE) <;> simp [hr]

/-- An invariant-classified node is not a pure rate equality. -/
theorem allRateEqs_of_inv (e : Expr) (he : isInvariantE e = true) :
    allRateEqs e = false := by
  rw [allRateEqs.eq_def]
  split
  · simp [he]
  · simp [he]

/-- When every conjunct is a rate equality, `decompose` never touches the
residual invariant. -/
theorem decompose_allRateEqs_invariant (d : Decomposer) (e : Expr) :
    allRateEqs e = true → (d.decompose e).invariant = d.invariant := by
  induction d, e using Decomposer.decompose.induct with
  | case1 d p t x y rest v s sd e2 he =>
    intro h
    simp only [e2] at he
    rw [allRateEqs_of_inv _ he] at h
    cases h
  | case2 d p t x y rest v s sd e2 he ihx ihy =>
    intro h
    simp only [e2, Bool.not_eq_true] at he
    rw [Decomposer.decompose.eq_1]
    simp only [he, Bool.false_eq_true, if_false]
    rw [allRateEqs.eq_1] at h
    simp only [he, Bool.not_false, Bool.true_and, Bool.and_eq_true] at h
    rw [ihy h.2, ihx h.1]
  | case3 d e hne he =>
    intro h
    rw [allRateEqs_of_inv _ he] at h
    cases h
  | case4 d kind pos ty x y tail value sym sdir hne he =>
    intro h
    simp only [Bool.not_eq_true] at he
    rw [Decomposer.decompose.eq_2 d kind pos ty x y tail value sym sdir hne]
    simp only [he, Bool.false_eq_true, if_false]
    exact addRate_invariant d x y
  | case5 d e hne1 he hne2 =>
    intro h
    simp only [Bool.not_eq_true] at he
    rw [Decomposer.decompose.eq_3 d e hne1 hne2]
    simp [he]

/-- C2: for every well-formed location invariant processed by the rate
decomposer, the original invariant is logically equivalent (under any
interpretation `A` of pure-invariant conjuncts and `R` of rate
equalities) to the conjunction of the residual invariant stored back into
the location and the rate equalities `R c_i r_i` of the emitted pairs;
and when at least one pair is emitted, the location's cost-rate field is
set to the rate expression of the first emitted pair. -/
theorem invariant_rate_split (A : Expr → Prop) (R : Expr → Expr → Prop)
    (inv : Expr) (hwf : wfInvWR inv = true) :
    (sem A R inv ↔
      (sem A R (visitStateDecompose inv).1
       ∧ ∀ q ∈ (Decomposer.init.decompose inv).rate, R q.1 q.2))
    ∧ ((Decomposer.init.decompose inv).rate ≠ [] →
        (visitStateDecompose inv).2
          = some ((Decomposer.init.decompose inv).rate.headD
                    (default, default)).2) := by
  constructor
  · have h1 : (visitStateDecompose inv).1
        = (invLeaves inv).foldl conjoinInv Expr.emptyExpr := by
      simp [visitStateDecompose, Decomposer.init, decompose_invariant_eq]
    have h2 : (Decomposer.init.decompose inv).rate = ratePairs inv := by
      simp [Decomposer.init, decompose_rate_eq]
    rw [h1, h2]
    rw [sem_foldl A R _ _ (invLeaves_spec inv hwf)]
    rw [sem_of_empty A R Expr.emptyExpr rfl]
    rw [sem_decomp A R inv hwf]
    tauto
  · intro hne
    have hx : (Decomposer.init.decompose inv).rate.isEmpty = false := by
      cases hb : (Decomposer.init.decompose inv).rate.isEmpty
      · rfl
      · exact absurd (List.isEmpty_iff.mp hb) hne
    simp [visitStateDecompose, hx]

/-- C10: for every non-empty location invariant consisting solely of rate
equalities, the decomposition part of `visitState` stores the empty
expression into the location's invariant field: the residual invariant
starts empty and is only extended by pure-invariant conjuncts. -/
theorem rate_only_invariant_cleared (inv : Expr) (_hne : inv.isEmpty = false)
    (h : allRateEqs inv = true) :
    (visitStateDecompose inv).1 = Expr.emptyExpr := by
  have hd := decompose_allRateEqs_invariant Decomposer.init inv h
  simpa [visitStateDecompose, Decomposer.init] using hd

/-- Witness for C2: the invariant `c <= 10 && cost' == 2` decomposes to
residual `c <= 10`, pairs `[(cost, 2)]`, and cost rate `2`. -/
theorem invariant_rate_split_witness :
    (visitStateDecompose invFullE).2 = some (intConst 2)
    ∧ (visitStateDecompose invFullE).1 = invLeafE := by
  have hr : (Decomposer.init.decompose invFullE).rate = [(costVarE, intConst 2)] := rfl
  constructor
  · have h2 := (invariant_rate_split (fun _ => True) (fun _ _ => True) invFullE rfl).2
    rw [h2 (by rw [hr]; simp), hr]
    rfl
  · rfl

/-- Witness for C10: the invariant `cost' == 2` leaves an empty residual
invariant. -/
theorem rate_only_invariant_cleared_witness :
    (visitStateDecompose rateEqE).1 = Expr.emptyExpr :=
  rate_only_invariant_cleared rateEqE rfl rfl


/-! ### Initialiser shape (C3) -/


/-- On success the array element loop returns one checked expression per
entry name, all entry names are empty, and every element of the
initialiser was accepted by the recursive check. -/
theorem checkInitElems_spec (V : List (String × Int)) (sb : Ty) (init : Expr) :
    ∀ (names : List String) (i : Nat) (rs : List Expr) (errs : List Err),
    checkInitElems V sb init names i = .ok (rs, errs) →
    rs.length = names.length
    ∧ (∀ nm ∈ names, nm = "")
    ∧ (∀ k, k < names.length →
        ∃ r e1, checkInitialiser V sb (init.arg (i + k)) = .ok (r, e1)) := by
  intro names
  induction names with
  | nil =>
    intro i rs errs hok
    rw [checkInitElems] at hok
    simp only [pure, Except.pure, Except.ok.injEq, Prod.mk.injEq] at hok
    obtain ⟨h1, _⟩ := hok
    subst h1
    simp
  | cons nm rest ih =>
    intro i rs errs hok
    rw [checkInitElems] at hok
    by_cases hnm : (nm != "") = true
    · simp [hnm] at hok
    · simp only [hnm, Bool.false_eq_true, if_false] at hok
      have hnm' : nm = "" := by
        simpa using hnm
      cases h1 : checkInitialiser V sb (init.arg i) with
      | error m =>
        rw [h1] at hok
        simp [bind, Except.bind] at hok
      | ok pr =>
        obtain ⟨r, e1⟩ := pr
        rw [h1] at hok
        cases h2 : checkInitElems V sb init rest (i + 1) with
        | error m =>
          rw [h2] at hok
          simp [bind, Except.bind] at hok
        | ok pr2 =>
          obtain ⟨rs2, e2⟩ := pr2
          rw [h2] at hok
          simp only [bind, Except.bind, pure, Except.pure, Except.ok.injEq,
            Prod.mk.injEq] at hok
          obtain ⟨hrs, _⟩ := hok
          subst hrs
          have hrec := ih (i + 1) rs2 e2 h2
          refine ⟨by simp [hrec.1], ?_, ?_⟩
          · intro x hx
            rcases List.mem_cons.mp hx with rfl | hx
            · exact hnm'
            · exact hrec.2.1 x hx
          · intro k hk
            cases k with
            | zero =>
              exact ⟨r, e1, by simpa using h1⟩
            | succ k2 =>
              have hk2 : k2 < rest.length := by
                simp at hk
                omega
              have := hrec.2.2 k2 hk2
              have harith : i + 1 + k2 = i + (k2 + 1) := by omega
              rw [harith] at this
              exact this


/-- The empty expression is rejected by `checkInitialiser` at every
declared type. -/
theorem checkInitialiser_empty_fails (V : List (String × Int)) (t : Ty) :
    ∀ r, checkInitialiser V t Expr.emptyExpr ≠ .ok r := by
  intro r
  rcases t with ⟨b, pf, l, h, n, sub, asz, flds⟩
  cases b <;>
    simp [checkInitialiser, Expr.emptyExpr, Expr.kind, isValueE, Expr.getType,
      Ty.nullT, Ty.prim, Ty.isValue, Ty.base]

/-- Inversion of the array case of `checkInitialiser`: on success the
result is a `LIST` of the declared type whose entry count is the declared
dimension, and every entry of the initialiser was positional. -/
theorem checkInitialiser_array_shape (V : List (String × Int)) (pf : List Pfx)
    (l h : RExpr) (n : Nat)
    (sub asz : List Ty) (flds : List (String × Ty)) (init out : Expr)
    (errs : List Err) (lower upper : Int)
    (hok : checkInitialiser V (Ty.mk .array pf l h n sub asz flds) init
            = .ok (out, errs))
    (hlo : ievalR V (Ty.mk .array pf l h n sub asz flds).getArraySize.getRange.1
            = some lower)
    (hhi : ievalR V (Ty.mk .array pf l h n sub asz flds).getArraySize.getRange.2
            = some upper) :
    out.kind = .LIST
    ∧ out.getType = Ty.mk .array pf l h n sub asz flds
    ∧ out.args.length = (((upper - lower + 1) % 4294967296).toNat)
    ∧ (∀ nm ∈ init.getType.fnames, nm = "") := by
  rw [checkInitialiser] at hok
  by_cases hk : (init.kind != EKind.LIST) = true
  · simp [hk] at hok
  · simp only [hk, Bool.false_eq_true, if_false] at hok
    by_cases hsz : (!(Ty.mk .array pf l h n sub asz flds).getArraySize.isInteger) = true
    · simp [hsz] at hok
    · simp only [hsz, Bool.false_eq_true, if_false] at hok
      rw [hlo, hhi] at hok
      by_cases hexc : (init.getSize > ((upper - lower + 1) % 4294967296).toNat)
      · simp [hexc] at hok
      · simp only [if_neg hexc] at hok
        split at hok
        case _ sb srest =>
          cases helems : checkInitElems V sb init init.getType.fnames 0 with
          | error m =>
            rw [helems] at hok
            simp [bind, Except.bind] at hok
          | ok pr =>
            obtain ⟨rs, errsE⟩ := pr
            rw [helems] at hok
            simp only [bind, Except.bind] at hok
            split at hok
            · simp at hok
            · rename_i hmiss
              simp only [pure, Except.pure, Except.ok.injEq, Prod.mk.injEq] at hok
              obtain ⟨hout, _⟩ := hok
              subst hout
              have hspec := checkInitElems_spec V sb init _ 0 rs errsE helems
              have hle : init.getType.fnames.length ≤ init.getSize := by
                by_contra hgt
                push_neg at hgt
                obtain ⟨r, e1, hr⟩ := hspec.2.2 init.getSize hgt
                have hempty : init.arg (0 + init.getSize) = Expr.emptyExpr := by
                  simp only [Expr.arg, Expr.getSize, Nat.zero_add]
                  apply List.getD_eq_default
                  omega
                rw [hempty] at hr
                exact checkInitialiser_empty_fails V sb _ hr
              refine ⟨rfl, rfl, ?_, hspec.2.1⟩
              simp only [Expr.createNaryList, Expr.args]
              rw [hspec.1]
              omega
        case _ =>
          split at hok
          case _ hfn =>
            split at hok
            · simp at hok
            · rename_i hge
              simp only [pure, Except.pure, Except.ok.injEq, Prod.mk.injEq] at hok
              obtain ⟨hout, _⟩ := hok
              subst hout
              refine ⟨rfl, rfl, ?_, ?_⟩
              · simp only [hfn, List.length_nil] at hge
                simp only [Expr.createNaryList, Expr.args, List.length_nil]
                omega
              · simp [hfn]
          case _ nm fr hfn =>
            split at hok <;> simp at hok

/-- The record entry loop preserves the length of the field-slot list. -/
theorem checkInitRecordLoop_length (V : List (String × Int))
    (flds : List (String × Ty)) (init : Expr) :
    ∀ (names : List String) (i cur : Nat) (res : List (Option Expr))
      (errsA : List Err) (res2 : List (Option Expr)) (errs2 : List Err),
    checkInitRecordLoop V flds init names i cur res errsA = .ok (res2, errs2) →
    res2.length = res.length := by
  intro names
  induction names with
  | nil =>
    intro i cur res errsA res2 errs2 hok
    rw [checkInitRecordLoop] at hok
    simp only [pure, Except.pure, Except.ok.injEq, Prod.mk.injEq] at hok
    rw [← hok.1]
  | cons nm rest ih =>
    intro i cur res errsA res2 errs2 hok
    rw [checkInitRecordLoop] at hok
    split at hok
    · simp only [pure, Except.pure, Except.ok.injEq, Prod.mk.injEq] at hok
      rw [← hok.1]
    · split at hok
      · simp only [pure, Except.pure, Except.ok.injEq, Prod.mk.injEq] at hok
        rw [← hok.1]
      · split at hok
        · exact ih _ _ _ _ _ _ hok
        · rename_i cur2 heq hlt hnone
          cases h1 : checkInitialiser V (flds.get ⟨cur2, by omega⟩).2 (init.arg i) with
          | error m =>
            rw [h1] at hok
            simp [bind, Except.bind] at hok
          | ok pr =>
            obtain ⟨r, e1⟩ := pr
            rw [h1] at hok
            simp only [bind, Except.bind] at hok
            have := ih _ _ _ _ _ _ hok
            simpa using this

/-- The record entry loop never overwrites a field slot that is already
filled: a duplicate entry reports an error and leaves the first value. -/
theorem checkInitRecordLoop_mono (V : List (String × Int))
    (flds : List (String × Ty)) (init : Expr) :
    ∀ (names : List String) (i cur : Nat) (res : List (Option Expr))
      (errsA : List Err) (res2 : List (Option Expr)) (errs2 : List Err),
    checkInitRecordLoop V flds init names i cur res errsA = .ok (res2, errs2) →
    ∀ j r, res.getD j none = some r → res2.getD j none = some r := by
  intro names
  induction names with
  | nil =>
    intro i cur res errsA res2 errs2 hok j r hj
    rw [checkInitRecordLoop] at hok
    simp only [pure, Except.pure, Except.ok.injEq, Prod.mk.injEq] at hok
    rw [← hok.1]
    exact hj
  | cons nm rest ih =>
    intro i cur res errsA res2 errs2 hok j r hj
    rw [checkInitRecordLoop] at hok
    split at hok
    · simp only [pure, Except.pure, Except.ok.injEq, Prod.mk.injEq] at hok
      rw [← hok.1]
      exact hj
    · split at hok
      · simp only [pure, Except.pure, Except.ok.injEq, Prod.mk.injEq] at hok
        rw [← hok.1]
        exact hj
      · split at hok
        · exact ih _ _ _ _ _ _ hok j r hj
        · rename_i cur2 heq hlt hnone
          cases h1 : checkInitialiser V (flds.get ⟨cur2, by omega⟩).2 (init.arg i) with
          | error m =>
            rw [h1] at hok
            simp [bind, Except.bind] at hok
          | ok pr =>
            obtain ⟨r2, e1⟩ := pr
            rw [h1] at hok
            simp only [bind, Except.bind] at hok
            refine ih _ _ _ _ _ _ hok j r ?_
            by_cases hjc : cur2 = j
            · subst hjc
              rw [hj] at hnone
              simp at hnone
            · rw [show (res.set cur2 (some r2)).getD j none = res.getD j none by
                simp [List.getD]
                rw [List.getElem?_set_ne hjc]]
              exact hj

/-- Every slot the record entry loop fills holds an expression accepted by
`checkInitialiser` against that field index's declared type. -/
theorem checkInitRecordLoop_filled (V : List (String × Int))
    (flds : List (String × Ty)) (init : Expr) :
    ∀ (names : List String) (i cur : Nat) (res : List (Option Expr))
      (errsA : List Err) (res2 : List (Option Expr)) (errs2 : List Err),
    res.length = flds.length →
    checkInitRecordLoop V flds init names i cur res errsA = .ok (res2, errs2) →
    ∀ j (hj : j < flds.length) r, res2.getD j none = some r →
      res.getD j none = some r
      ∨ ∃ iIdx e1, checkInitialiser V (flds.get ⟨j, hj⟩).2 (init.arg iIdx)
          = .ok (r, e1) := by
  intro names
  induction names with
  | nil =>
    intro i cur res errsA res2 errs2 hlen hok j hj r hr
    rw [checkInitRecordLoop] at hok
    simp only [pure, Except.pure, Except.ok.injEq, Prod.mk.injEq] at hok
    rw [hok.1]
    exact Or.inl hr
  | cons nm rest ih =>
    intro i cur res errsA res2 errs2 hlen hok j hj r hr
    rw [checkInitRecordLoop] at hok
    split at hok
    · simp only [pure, Except.pure, Except.ok.injEq, Prod.mk.injEq] at hok
      rw [hok.1]
      exact Or.inl hr
    · split at hok
      · simp only [pure, Except.pure, Except.ok.injEq, Prod.mk.injEq] at hok
        rw [hok.1]
        exact Or.inl hr
      · split at hok
        · exact ih _ _ _ _ _ _ hlen hok j hj r hr
        · rename_i cur2 heq hlt hnone
          cases h1 : checkInitialiser V (flds.get ⟨cur2, by omega⟩).2 (init.arg i) with
          | error m =>
            rw [h1] at hok
            simp [bind, Except.bind] at hok
          | ok pr =>
            obtain ⟨r2, e1⟩ := pr
            rw [h1] at hok
            simp only [bind, Except.bind] at hok
            have hlen2 : (res.set cur2 (some r2)).length = flds.length := by
              simpa using hlen
            rcases ih _ _ _ _ _ _ hlen2 hok j hj r hr with hL | hR
            · by_cases hjc : cur2 = j
              · subst hjc
                have hcl : cur2 < res.length := by omega
                rw [show (res.set cur2 (some r2)).getD cur2 none = some r2 by
                  simp [List.getD]
                  rw [List.getElem?_set_self hcl]
                  rfl] at hL
                obtain rfl : r2 = r := by
                  simpa using hL
                exact Or.inr ⟨i, e1, h1⟩
              · rw [show (res.set cur2 (some r2)).getD j none = res.getD j none by
                  simp [List.getD]
                  rw [List.getElem?_set_ne hjc]] at hL
                exact Or.inl hL
            · exact Or.inr hR

/-- Inversion of the record case of `checkInitialiser` (past the
same-record pass-through): on success the result is a `LIST` of the
declared type with one entry per declared field, in declaration order,
each checked against its field's declared type. -/
theorem checkInitialiser_record_shape (V : List (String × Int)) (pf : List Pfx)
    (l h : RExpr) (n : Nat)
    (sub asz : List Ty) (flds : List (String × Ty)) (init out : Expr)
    (errs : List Err)
    (hok : checkInitialiser V (Ty.mk .record pf l h n sub asz flds) init
            = .ok (out, errs))
    (hpass : (init.getType.base == TyBase.record
        && (Ty.mk .record pf l h n sub asz flds).nid == init.getType.nid)
          = false) :
    out.kind = .LIST
    ∧ out.getType = Ty.mk .record pf l h n sub asz flds
    ∧ out.args.length = flds.length
    ∧ ∀ j (hj : j < flds.length), ∃ iIdx e1,
        checkInitialiser V (flds.get ⟨j, hj⟩).2 (init.arg iIdx)
          = .ok (out.args.getD j Expr.emptyExpr, e1) := by
  rw [checkInitialiser] at hok
  rw [hpass] at hok
  simp only [Bool.false_eq_true, if_false] at hok
  by_cases hk : (init.kind != EKind.LIST) = true
  · simp [hk] at hok
  · simp only [hk, Bool.false_eq_true, if_false] at hok
    cases hloop : checkInitRecordLoop V flds init init.getType.fnames 0 0
        (List.replicate flds.length none) [] with
    | error m =>
      rw [hloop] at hok
      simp [bind, Except.bind] at hok
    | ok pr =>
      obtain ⟨result, errsL⟩ := pr
      rw [hloop] at hok
      simp only [bind, Except.bind] at hok
      split at hok
      · simp at hok
      · rename_i hnone
        simp only [pure, Except.pure, Except.ok.injEq, Prod.mk.injEq] at hok
        obtain ⟨hout, _⟩ := hok
        subst hout
        have hlen := checkInitRecordLoop_length V flds init _ _ _ _ _ _ _ hloop
        rw [List.length_replicate] at hlen
        refine ⟨rfl, rfl, ?_, ?_⟩
        · simp [Expr.createNaryList, Expr.args, hlen]
        · intro j hj
          have hjr : j < result.length := by omega
          have hforall : ∀ x ∈ result, x.isSome := by
            intro x hx
            by_contra hns
            exact hnone (List.any_eq_true.mpr ⟨x, hx, by
              simpa [Option.isNone_iff_eq_none] using
                Option.not_isSome_iff_eq_none.mp hns⟩)
          have hsome : (result.getD j none).isSome := by
            rw [List.getD_eq_getElem?_getD, List.getElem?_eq_getElem hjr]
            exact hforall _ (List.getElem_mem hjr)
          obtain ⟨r, hr⟩ := Option.isSome_iff_exists.mp hsome
          have hfill := checkInitRecordLoop_filled V flds init _ _ _ _ _ _ _
              (by simp) hloop j hj r hr
          rcases hfill with hL | ⟨iIdx, e1, hcheck⟩
          · rw [List.getD_eq_getElem?_getD, List.getElem?_replicate] at hL
            simp [hj] at hL
          · refine ⟨iIdx, e1, ?_⟩
            have hmap : (Expr.createNaryList init.pos
                (result.map (fun o => o.getD Expr.emptyExpr))
                (Ty.mk .record pf l h n sub asz flds)).args.getD j Expr.emptyExpr
                  = r := by
              simp only [Expr.createNaryList, Expr.args]
              rw [List.getD_eq_getElem?_getD, List.getElem?_map,
                List.getElem?_eq_getElem hjr]
              have : result[j] = some r := by
                rw [List.getD_eq_getElem?_getD, List.getElem?_eq_getElem hjr] at hr
                simpa using hr
              simp [this]
            rw [hmap]
            exact hcheck

/-- C3: for every initialiser accepted by `checkInitialiser`: if the
declared type is an array (with a computable dimension), the returned
expression is a `LIST` with exactly the declared dimension of entries and
every entry of the initialiser is positional (empty-named); if the
declared type is a record (and the initialiser is not passed through as a
value of the same record type), the returned expression is a `LIST` with
one entry per declared field, in field-declaration order, each entry
accepted by `checkInitialiser` against that field's declared type; and
the record entry loop never overwrites an already-filled field slot, so
every field is filled exactly once. -/
theorem initialiser_list_shape (V : List (String × Int))
    (pf : List Pfx) (l h : RExpr) (n : Nat) (sub asz : List Ty)
    (flds : List (String × Ty)) (init out : Expr) (errs : List Err)
    (lower upper : Int) :
    (checkInitialiser V (Ty.mk .array pf l h n sub asz flds) init
        = .ok (out, errs) →
      ievalR V (Ty.mk .array pf l h n sub asz flds).getArraySize.getRange.1
        = some lower →
      ievalR V (Ty.mk .array pf l h n sub asz flds).getArraySize.getRange.2
        = some upper →
      out.kind = .LIST
        ∧ out.args.length = ((upper - lower + 1) % 4294967296).toNat
        ∧ ∀ nm ∈ init.getType.fnames, nm = "")
    ∧ (checkInitialiser V (Ty.mk .record pf l h n sub asz flds) init
        = .ok (out, errs) →
      (init.getType.base == TyBase.record
        && (Ty.mk .record pf l h n sub asz flds).nid == init.getType.nid)
          = false →
      out.kind = .LIST
        ∧ out.args.length = flds.length
        ∧ ∀ j (hj : j < flds.length), ∃ iIdx e1,
            checkInitialiser V (flds.get ⟨j, hj⟩).2 (init.arg iIdx)
              = .ok (out.args.getD j Expr.emptyExpr, e1))
    ∧ (∀ names i cur res errsA res2 errs2,
        checkInitRecordLoop V flds init names i cur res errsA
          = .ok (res2, errs2) →
        ∀ j r, res.getD j none = some r → res2.getD j none = some r) := by
  refine ⟨?_, ?_, ?_⟩
  · intro hok hlo hhi
    have hs := checkInitialiser_array_shape V pf l h n sub asz flds init out
      errs lower upper hok hlo hhi
    exact ⟨hs.1, hs.2.2.1, hs.2.2.2⟩
  · intro hok hpass
    have hs := checkInitialiser_record_shape V pf l h n sub asz flds init out
      errs hok hpass
    exact ⟨hs.1, hs.2.2.1, hs.2.2.2⟩
  · intro names i cur res errsA res2 errs2 hok j r hj
    exact checkInitRecordLoop_mono V flds init names i cur res errsA res2
      errs2 hok j r hj

set_option maxHeartbeats 1000000 in
/-- Witness for C3: `bool[1] x = { true }` yields a one-entry positional
list; `struct { bool a; bool b; } s = { b: false, a: true }` yields a
two-entry list in field order with each entry checked against its field's
type; and a pre-filled slot survives the record entry loop. -/
theorem initialiser_list_shape_witness :
    ((Expr.createNaryList 40 [boolConst 1] arrBool1).kind = EKind.LIST
      ∧ (Expr.createNaryList 40 [boolConst 1] arrBool1).args.length
          = (((1 : Int) - 1 + 1) % 4294967296).toNat
      ∧ ∀ nm ∈ initList1.getType.fnames, nm = "")
    ∧ ((Expr.createNaryList 50 [boolConst 1, boolConst 0] recTy2).kind
          = EKind.LIST
      ∧ (Expr.createNaryList 50 [boolConst 1, boolConst 0] recTy2).args.length
          = recTy2.fields.length
      ∧ ∀ j (hj : j < recTy2.fields.length), ∃ iIdx e1,
          checkInitialiser [] (recTy2.fields.get ⟨j, hj⟩).2 (recInit2.arg iIdx)
            = .ok ((Expr.createNaryList 50 [boolConst 1, boolConst 0]
                recTy2).args.getD j Expr.emptyExpr, e1))
    ∧ ([some (boolConst 1)].getD 0 none = some (boolConst 1)) := by
  refine ⟨?_, ?_, ?_⟩
  · exact (initialiser_list_shape [] [] .emptyE .emptyE 0 [Ty.BOOL]
      [Ty.createInteger (.cst 1) (.cst 1)] [] initList1
      (Expr.createNaryList 40 [boolConst 1] arrBool1) [] 1 1).1
      (by simp [checkInitialiser, checkInitElems, arrBool1, Ty.createArray,
        Ty.createInteger, Ty.BOOL, Ty.prim, initList1, initListTy1, boolConst,
        Expr.kind, Expr.getType, Expr.getSize, Expr.args, Expr.arg, Expr.pos,
        Expr.createNaryList, Ty.getArraySize, Ty.getRange, Ty.isInteger,
        Ty.base, Ty.fnames, Ty.fields, Ty.lo, Ty.hi, Ty.asizeL, ievalR,
        isValueE, Ty.isValue, bind, Except.bind, pure, Except.pure])
      (by decide) (by decide)
  · exact (initialiser_list_shape [] [] .emptyE .emptyE 5 [] []
      [("a", Ty.BOOL), ("b", Ty.BOOL)] recInit2
      (Expr.createNaryList 50 [boolConst 1, boolConst 0] recTy2) [] 1 1).2.1
      (by simp [checkInitialiser, checkInitRecordLoop, recTy2, recInit2,
        recInitTy2, boolConst, Expr.kind, Expr.getType, Expr.getSize,
        Expr.args, Expr.arg, Expr.pos, Expr.createNaryList, Ty.nid, Ty.base,
        Ty.fnames, Ty.fields, List.findIdx?, List.get, isValueE, Ty.isValue,
        Ty.BOOL, Ty.prim, bind, Except.bind, pure, Except.pure])
      (by decide)
  · exact (initialiser_list_shape [] [] .emptyE .emptyE 5 [] []
      [("a", Ty.BOOL), ("b", Ty.BOOL)] recInit2
      (Expr.createNaryList 50 [boolConst 1, boolConst 0] recTy2) [] 1 1).2.2
      [] 0 0 [some (boolConst 1)] [] [some (boolConst 1)] []
      (by simp [checkInitRecordLoop, pure, Except.pure]) 0 (boolConst 1) rfl

end UTAP
